import Mathlib

/-!
# ast-cli: scan submission pipeline

A shallow embedding of `internal/commands/scan.go` (`filterMatched`,
`addDirFiles`, `compressFolder`, `updateScanRequestValues`,
`determineSourceType`, `runCreateScanCommand`) and of
`internal/wrappers/scans-http.go` (`Get`, `Tags`), with the properties the
specification states about them.

Conventions of the embedding.

* Go strings are Lean `String`s; indexing a string at byte 0 and slicing off
  byte 0 are done on the character list, which agrees with Go on every string
  whose first character is ASCII (in particular on the marker `!`).
* A call that does not return (a runtime panic such as an index out of range
  or a failed type assertion, or `log.Fatal`) is the value `none`; the walk
  of `addDirFiles`, which writes into the archive as it goes, gives the
  entries written together with a flag for the panic.
* Standard-library functions the program calls (`path.Match`,
  `json.Decoder.Decode`) are parameters of the definitions that call them,
  so every theorem holds for whatever these functions compute.  A
  transcription of `path.Match` is given for the concrete examples.
-/

namespace AstCli

/-! ## Go's `path.Match` (standard library), used by the concrete examples -/

/-- The three results `(rest, ok, err)` of Go's `matchChunk`; `err` is true
for `ErrBadPattern`. -/
structure ChunkResult where
  rest : List Char
  ok : Bool
  err : Bool

/-- The leading-star loop of Go's `scanChunk`: drops the leading `*`s and
reports whether there was one. -/
def scanStars : List Char → Bool × List Char
  | '*' :: rest => (true, (scanStars rest).2)
  | p => (false, p)

/-- The scan loop of Go's `scanChunk`: splits the pattern before the first
`*` that is outside a character class, giving `(chunk, rest)`. An escaped
character is skipped. -/
def scanSplit : List Char → Bool → List Char × List Char
  | [], _ => ([], [])
  | ['\\'], _ => (['\\'], [])
  | '\\' :: c :: rest, inrange =>
    ('\\' :: c :: (scanSplit rest inrange).1, (scanSplit rest inrange).2)
  | c :: rest, inrange =>
    if c = '[' then (c :: (scanSplit rest true).1, (scanSplit rest true).2)
    else if c = ']' then (c :: (scanSplit rest false).1, (scanSplit rest false).2)
    else if c = '*' ∧ inrange = false then ([], c :: rest)
    else (c :: (scanSplit rest inrange).1, (scanSplit rest inrange).2)

/-- Go's `getEsc`: one possibly escaped character of a character class,
as `(r, nchunk, err)`. -/
def getEsc (chunk : List Char) : Char × List Char × Bool :=
  match chunk with
  | [] => ('\x00', [], true)
  | c :: cs =>
    if c = '-' ∨ c = ']' then ('\x00', [], true)
    else
      match (if c = '\\' then cs else chunk) with
      | [] => ('\x00', [], true)
      | r :: nchunk => (r, nchunk, nchunk.isEmpty)

/-- The range loop of a character class in Go's `matchChunk`: `none` is
`ErrBadPattern`, otherwise the chunk after the closing bracket and whether
`r` lies in one of the ranges. The first argument bounds the number of
iterations; each one consumes a character of the chunk. -/
def matchClass : Nat → List Char → Char → Bool → Nat → Option (List Char × Bool)
  | 0, _, _, _, _ => none
  | fuel + 1, chunk, r, mtch, nrange =>
    if chunk.head? = some ']' ∧ 0 < nrange then some (chunk.tail, mtch)
    else
      match getEsc chunk with
      | (_, _, true) => none
      | (lo, chunk1, false) =>
        match chunk1 with
        | '-' :: cs =>
          match getEsc cs with
          | (_, _, true) => none
          | (hi, chunk2, false) =>
            matchClass fuel chunk2 r (mtch || (decide (lo ≤ r) && decide (r ≤ hi))) (nrange + 1)
        | _ => matchClass fuel chunk1 r (mtch || (decide (lo ≤ r) && decide (r ≤ lo))) (nrange + 1)

/-- Go's `matchChunk`: matches a star-free chunk against the beginning of
`s`. The first argument bounds the number of iterations; each one consumes
a character of `s`. -/
def matchChunk : Nat → List Char → List Char → ChunkResult
  | 0, _, _ => ⟨[], false, true⟩
  | fuel + 1, chunk, s =>
    match chunk with
    | [] => ⟨s, true, false⟩
    | c :: cs =>
      match s with
      | [] => ⟨[], false, false⟩
      | s0 :: ss =>
        if c = '[' then
          match matchClass (cs.length + 1) (if cs.head? = some '^' then cs.tail else cs) s0 false 0 with
          | none => ⟨[], false, true⟩
          | some (chunk2, mtch) =>
            if mtch = (cs.head? = some '^') then ⟨[], false, false⟩
            else matchChunk fuel chunk2 ss
        else if c = '?' then
          if s0 = '/' then ⟨[], false, false⟩ else matchChunk fuel cs ss
        else if c = '\\' then
          match cs with
          | [] => ⟨[], false, true⟩
          | c1 :: cs1 => if c1 ≠ s0 then ⟨[], false, false⟩ else matchChunk fuel cs1 ss
        else
          if c ≠ s0 then ⟨[], false, false⟩ else matchChunk fuel cs ss

/-- Outcome of the star loop of Go's `Match`. -/
inductive StarResult where
  | found (t : List Char)
  | bad
  | notFound

/-- The loop of Go's `Match` that, after a `*`, tries the chunk after
skipping `i+1` characters of the name, never skipping a `/`. -/
def starLoop (chunk : List Char) (patEmpty : Bool) : List Char → StarResult
  | [] => .notFound
  | c :: rest =>
    if c = '/' then .notFound
    else if (matchChunk (rest.length + 1) chunk rest).ok then
      if patEmpty ∧ (matchChunk (rest.length + 1) chunk rest).rest ≠ [] then
        starLoop chunk patEmpty rest
      else .found (matchChunk (rest.length + 1) chunk rest).rest
    else if (matchChunk (rest.length + 1) chunk rest).err then .bad
    else starLoop chunk patEmpty rest

/-- The pattern loop of Go's `Match`, as `(matched, err)`. The first argument
bounds the number of chunks. -/
def matchLoop : Nat → List Char → List Char → Bool × Bool
  | 0, _, _ => (false, true)
  | fuel + 1, pattern, name =>
    if pattern = [] then (name.isEmpty, false)
    else
      let star := (scanStars pattern).1
      let chunk := (scanSplit (scanStars pattern).2 false).1
      let rest := (scanSplit (scanStars pattern).2 false).2
      if star ∧ chunk = [] then (!name.contains '/', false)
      else
        let r := matchChunk (name.length + 1) chunk name
        if r.ok ∧ (r.rest = [] ∨ rest ≠ []) then matchLoop fuel rest r.rest
        else if r.err then (false, true)
        else if star then
          match starLoop chunk rest.isEmpty name with
          | .found t => matchLoop fuel rest t
          | .bad => (false, true)
          | .notFound => (false, false)
        else (false, false)

/-- Go's `path.Match(pattern, name)` as `(matched, err ≠ nil)`, transcribed
from the standard library for strings of ASCII characters. -/
def pathMatch (pattern name : String) : Bool × Bool :=
  matchLoop (pattern.length + 1) pattern.data name.data

/-! ## Glob filter engine: `filterMatched` -/

/-- The type of Go's `path.Match`: pattern and name to `(matched, err ≠ nil)`. -/
abbrev PathMatch := String → String → Bool × Bool

/-- The local variables of `filterMatched`. -/
structure FilterState where
  matched : Bool
  firstMatch : Bool
  excluded : Bool

/-- One iteration of the `for _, filter := range filters` loop of
`filterMatched`. `filter[0]` on an empty string is an index out of range:
`none`. The error result of `path.Match` is discarded (`_`). -/
def filterStep (pm : PathMatch) (fileName : String) (st : FilterState) (filter : String) :
    Option FilterState :=
  match filter.data with
  | [] => none
  | c :: cs =>
    if c = '!' then
      some { st with excluded := if !st.excluded then (pm ⟨cs⟩ fileName).1 else st.excluded }
    else
      let matched := if st.firstMatch then false else st.matched
      some { st with
        matched := if !matched then (pm filter fileName).1 else matched
        firstMatch := if st.firstMatch then false else st.firstMatch }

/-- The loop of `filterMatched` from a given state. -/
def filterLoop (pm : PathMatch) (fileName : String) : FilterState → List String → Option FilterState
  | st, [] => some st
  | st, filter :: rest =>
    match filterStep pm fileName st filter with
    | none => none
    | some st1 => filterLoop pm fileName st1 rest

/-- `filterMatched(filters, fileName)`: the pair `(matched, excluded)`, or
`none` when the call panics. -/
def filterMatched (pm : PathMatch) (filters : List String) (fileName : String) :
    Option (Bool × Bool) :=
  match filterLoop pm fileName ⟨true, true, false⟩ filters with
  | none => none
  | some st => some (st.matched, st.excluded)

/-- A pattern with a leading `!`: an exclusion. -/
def isExclusion (p : String) : Prop := p.data.head? = some '!'

instance (p : String) : Decidable (isExclusion p) := by unfold isExclusion; infer_instance

/-- The pattern of an exclusion, the marker stripped (`filter[1:]`). -/
def stripMarker (p : String) : String := ⟨p.data.tail⟩

/-- Whether some pattern without a leading `!` is in the list. -/
def hasInclusion (filters : List String) : Bool :=
  filters.any (fun p => !decide (isExclusion p))

/-- Whether the name matches some pattern without a leading `!`. -/
def anyInclusion (pm : PathMatch) (f : String) (filters : List String) : Bool :=
  filters.any (fun p => !decide (isExclusion p) && (pm p f).1)

/-- Whether the name matches some exclusion, its marker stripped. -/
def anyExclusion (pm : PathMatch) (f : String) (filters : List String) : Bool :=
  filters.any (fun p => decide (isExclusion p) && (pm (stripMarker p) f).1)

/-! ## Tree packager: `addDirFiles`, `compressFolder` -/

/-- File contents. -/
abbrev Bytes := List UInt8

mutual
/-- What `ioutil.ReadDir` reports for a directory: an error (the returned
list is then nil) or the entries, each with what reading it reports in turn. -/
inductive Dir where
  | unreadable
  | listing (files : Entries)
/-- The `[]os.FileInfo` of a listing, in the order `ReadDir` returns it. -/
inductive Entries where
  | nil
  | cons (file : Entry) (rest : Entries)
/-- One `os.FileInfo`. For `IsDir()` false: the name, the contents of the
file and how `ioutil.ReadFile` fails on it, `none` when it returns the
contents and a nil error, `some dat` when it returns an error and the data
`dat` (nil or partial). For `IsDir()` true: the name and the directory. -/
inductive Entry where
  | file (name : String) (contents : Bytes) (failure : Option Bytes)
  | dir (name : String) (sub : Dir)
end

/-- The entries created in a `zip.Writer` so far: the name given to
`zip.Create` and the bytes written, in order. Creating and writing an entry
is taken to succeed. -/
abbrev Archive := List (String × Bytes)

/-- The verdict `matched, excluded` computed for a file in `addDirFiles`:
`true, false` unless `filters != nil`. -/
def fileVerdict (pm : PathMatch) (filters : Option (List String)) (name : String) :
    Option (Bool × Bool) :=
  match filters with
  | none => some (true, false)
  | some fs => filterMatched pm fs name

/-- The data `dat` that `ioutil.ReadFile` returns for a file. -/
def readFile (contents : Bytes) (failure : Option Bytes) : Bytes :=
  match failure with
  | none => contents
  | some dat => dat

/-- The state of the archive after a call of `addDirFiles`: the entries
created so far, and whether the call ended in the panic of a call of
`filterMatched` instead of returning. -/
structure Walk where
  zip : Archive
  panicked : Bool
deriving DecidableEq

mutual
/-- `addDirFiles(zip, baseDir, parentDir, filters, exclusions)`; the third
argument is what `ioutil.ReadDir(parentDir)` reports. A listing error is
printed and the loop runs over the nil list. `exclusions` is never read. -/
def addDirFiles (pm : PathMatch) (zip : Archive) (baseDir : String) (parentDir : Dir)
    (filters exclusions : Option (List String)) : Walk :=
  match parentDir with
  | .unreadable => ⟨zip, false⟩
  | .listing files => addDirFilesLoop pm zip baseDir files filters exclusions
/-- The `for _, file := range files` loop of `addDirFiles`. A panic in the
body ends it. -/
def addDirFilesLoop (pm : PathMatch) (zip : Archive) (baseDir : String) (files : Entries)
    (filters exclusions : Option (List String)) : Walk :=
  match files with
  | .nil => ⟨zip, false⟩
  | .cons file rest =>
    if (addDirFilesBody pm zip baseDir file filters exclusions).panicked then
      addDirFilesBody pm zip baseDir file filters exclusions
    else
      addDirFilesLoop pm (addDirFilesBody pm zip baseDir file filters exclusions).zip baseDir
        rest filters exclusions
/-- The body of the loop of `addDirFiles` for one `file`. A read error is
printed and the entry is still created, with the data returned. -/
def addDirFilesBody (pm : PathMatch) (zip : Archive) (baseDir : String) (file : Entry)
    (filters exclusions : Option (List String)) : Walk :=
  match file with
  | .file name contents failure =>
    match fileVerdict pm filters name with
    | none => ⟨zip, true⟩
    | some (matched, excluded) =>
      if matched && !excluded then
        ⟨zip ++ [(baseDir ++ name, readFile contents failure)], false⟩
      else ⟨zip, false⟩
  | .dir name sub => addDirFiles pm zip (baseDir ++ name ++ "/") sub filters exclusions
end

/-- Splitting at a separator character, the current piece accumulated in
reverse. -/
def splitAux (sep : Char) : List Char → List Char → List String
  | [], cur => [⟨cur.reverse⟩]
  | c :: cs, cur =>
    if c = sep then ⟨cur.reverse⟩ :: splitAux sep cs [] else splitAux sep cs (c :: cur)

/-- Go's `strings.Split(s, ",")`. -/
def splitComma (s : String) : List String := splitAux ',' s.data []

/-- What `compressFolder` returns and leaves behind: the two results and
the contents of the archive file. -/
structure Compressed where
  path : String
  err : Option String
  archive : Archive
deriving DecidableEq

/-- `compressFolder(sourceDir, filter, sourceExclusionFilter)`. `tempFile` is
what `ioutil.TempFile` reports (the name, or `none` for an error),
`closeOk` whether `zip.Close` succeeds, `root` what reading
`sourceDir + "/"` reports. `log.Fatal` and a panic are `none`. -/
def compressFolder (pm : PathMatch) (tempFile : Option String) (closeOk : Bool) (root : Dir)
    (filter sourceExclusionFilter : String) : Option Compressed :=
  let filters := if filter.length > 0 then some (splitComma filter) else none
  let exclusions :=
    if sourceExclusionFilter.length > 0 then some (splitComma sourceExclusionFilter) else none
  match tempFile with
  | none => none
  | some outputFile =>
    if (addDirFiles pm [] "/" root filters exclusions).panicked then none
    else if closeOk then
      some ⟨outputFile, none, (addDirFiles pm [] "/" root filters exclusions).zip⟩
    else none

/-- The path of a file below the packaged root: the directory names, each
followed by `/`, then the base name. -/
def joinPath : List String → String → String
  | [], base => base
  | d :: ds, base => d ++ "/" ++ joinPath ds base

/-- A file of a tree: the names of the directories leading to it from the
root, its base name, its contents and how reading it fails. -/
structure TreeFile where
  dirs : List String
  name : String
  contents : Bytes
  failure : Option Bytes

mutual
/-- The non-directory entries of a tree at any depth, in listing order. -/
def Dir.files : Dir → List TreeFile
  | .unreadable => []
  | .listing es => es.files
/-- The files of a listing. -/
def Entries.files : Entries → List TreeFile
  | .nil => []
  | .cons e rest => e.files ++ rest.files
/-- The files of one entry. -/
def Entry.files : Entry → List TreeFile
  | .file name contents failure => [⟨[], name, contents, failure⟩]
  | .dir name sub => sub.files.map (fun x => { x with dirs := name :: x.dirs })
end

mutual
/-- Every directory of the tree can be listed and every file is read in
full without error. -/
def Dir.readsSucceed : Dir → Bool
  | .unreadable => false
  | .listing es => es.readsSucceed
/-- Every read below a listing succeeds. -/
def Entries.readsSucceed : Entries → Bool
  | .nil => true
  | .cons e rest => e.readsSucceed && rest.readsSucceed
/-- Every read below an entry succeeds. -/
def Entry.readsSucceed : Entry → Bool
  | .file _ _ failure => failure.isNone
  | .dir _ sub => sub.readsSucceed
end

/-- The keep verdict `matched && !excluded` of a base name, false when no
verdict is returned. -/
def kept (pm : PathMatch) (filters : Option (List String)) (name : String) : Bool :=
  match fileVerdict pm filters name with
  | some (matched, excluded) => matched && !excluded
  | none => false

/-- The archive entries that packaging a tree under `baseDir` creates: one
for each kept file, named `baseDir` followed by the path of the file and
holding the data read from it. -/
def keptEntries (pm : PathMatch) (filters : Option (List String)) (baseDir : String)
    (tree : Dir) : Archive :=
  (tree.files.filter (fun x => kept pm filters x.name)).map
    (fun x => (baseDir ++ joinPath x.dirs x.name, readFile x.contents x.failure))

/-- The example tree: `a.txt` and `b.log` in the root. -/
def sampleRoot : Dir :=
  .listing (.cons (.file "a.txt" [104, 105] none) (.cons (.file "b.log" [1, 2, 3] none) .nil))

/-- A tree with a sub-directory: `a.txt` in the root and in `sub`. -/
def sampleNested : Dir :=
  .listing (.cons (.file "a.txt" [104, 105] none)
    (.cons (.dir "sub" (.listing (.cons (.file "a.txt" [7] none) .nil))) .nil))

/-! ## Request synthesizer: `updateScanRequestValues` -/

/-- A decoded JSON value, as `json.Unmarshal` stores it in an
`interface{}`: nil, bool, float64, string, `[]interface{}` or
`map[string]interface{}`. A number is kept as the rational it denotes (no
operation of the program reads one). A map is a list of bindings read at
the first binding of a key. -/
inductive Json where
  | null
  | bool (b : Bool)
  | num (n : Rat)
  | str (s : String)
  | arr (items : List Json)
  | obj (fields : List (String × Json))

/-- A `map[string]interface{}`. -/
abbrev JsonMap := List (String × Json)

/-- Reading a key of a map, `m[k]`: `none` when the key is absent. -/
def lookup (k : String) : JsonMap → Option Json
  | [] => none
  | (k1, v) :: rest => if k1 = k then some v else lookup k rest

/-- Writing a key of a map, `m[k] = v`. -/
def setKey (k : String) (v : Json) : JsonMap → JsonMap
  | [] => [(k, v)]
  | (k1, v1) :: rest => if k1 = k then (k, v) :: rest else (k1, v1) :: setKey k v rest

/-- The test `m[k] == nil`: the key is absent or holds JSON null. -/
def isNil : Option Json → Bool
  | none => true
  | some .null => true
  | _ => false

/-- The type assertion `x.(map[string]interface{})`, a panic (`none`)
unless `x` holds a map. -/
def asMap : Option Json → Option JsonMap
  | some (.obj m) => some m
  | _ => none

/-- The type assertion `x.([]interface{})`, a panic unless `x` holds a slice. -/
def asSlice : Option Json → Option (List Json)
  | some (.arr a) => some a
  | _ => none

/-- The string flags of the create command read by `updateScanRequestValues`. -/
structure Flags where
  projectName : String
  projectSourceType : String
  projectType : String
  incremental : String
  presetName : String

/-- The statement `info["project"].(map[string]interface{})[k] = v`. -/
def setProject (info : JsonMap) (k : String) (v : Json) : Option JsonMap :=
  match asMap (lookup "project" info) with
  | none => none
  | some project => some (setKey "project" (.obj (setKey k v project)) info)

/-- The expression `info["config"].([]interface{})[0].(map[string]interface{})`:
a panic unless `config` is a non-empty slice whose first element is a map. -/
def config0 (info : JsonMap) : Option JsonMap :=
  match asSlice (lookup "config" info) with
  | none => none
  | some [] => none
  | some (c :: _) => asMap (some c)

/-- The statement
`info["config"].([]interface{})[0].(map[string]interface{})[k] = v`. -/
def setConfig0 (info : JsonMap) (k : String) (v : Json) : Option JsonMap :=
  match asSlice (lookup "config" info), config0 info with
  | some (_ :: rest), some c0 => some (setKey "config" (.arr (.obj (setKey k v c0) :: rest)) info)
  | _, _ => none

/-- The statement
`info["config"].([]interface{})[0].(map[string]interface{})["value"].(map[string]interface{})[k] = v`. -/
def setValue (info : JsonMap) (k : String) (v : Json) : Option JsonMap :=
  match config0 info with
  | none => none
  | some c0 =>
    match asMap (lookup "value" c0) with
    | none => none
    | some value => setConfig0 info "value" (.obj (setKey k v value))

/-- `updateScanRequestValues(input, cmd)` on the decoded input (`none`: the
input is not valid JSON), giving the document that is marshalled back into
`*input`. `json.Unmarshal` leaves `info` a nil map unless the input is a
JSON object, and the first write into a nil map panics. -/
def updateScanRequestValues (input : Option Json) (cmd : Flags) : Option Json :=
  match input with
  | some (.obj info0) =>
    let info1 := if isNil (lookup "project" info0) then setKey "project" (.obj []) info0 else info0
    match (if cmd.projectName ≠ "" then setProject info1 "id" (.str cmd.projectName)
           else some info1) with
    | none => none
    | some info2 =>
    match (if cmd.projectSourceType ≠ "" then setProject info2 "type" (.str cmd.projectSourceType)
           else some info2) with
    | none => none
    | some info3 =>
    let info4 :=
      if isNil (lookup "config" info3) then setKey "config" (.arr [.obj []]) info3 else info3
    match (if cmd.projectType ≠ "" then setConfig0 info4 "type" (.str cmd.projectType)
           else some info4) with
    | none => none
    | some info5 =>
    match config0 info5 with
    | none => none
    | some c0 =>
    match (if isNil (lookup "value" c0) then setConfig0 info5 "value" (.obj [])
           else some info5) with
    | none => none
    | some info6 =>
    match (if cmd.incremental ≠ "" then setValue info6 "incremental" (.str cmd.incremental)
           else some info6) with
    | none => none
    | some info7 =>
    match (if cmd.presetName ≠ "" then setValue info7 "presetName" (.str cmd.presetName)
           else some info7) with
    | none => none
    | some info8 => some (.obj info8)
  | _ => none

/-- The value at `project.<k>` of a document, `none` when there is none. -/
def projectField (k : String) : Json → Option Json
  | .obj info =>
    match lookup "project" info with
    | some (.obj project) => lookup k project
    | _ => none
  | _ => none

/-- The value at `config[0]` of a document. -/
def configFirst : Json → Option Json
  | .obj info =>
    match lookup "config" info with
    | some (.arr (c :: _)) => some c
    | _ => none
  | _ => none

/-- The value at `config[0].<k>` of a document. -/
def configField (k : String) (doc : Json) : Option Json :=
  match configFirst doc with
  | some (.obj c0) => lookup k c0
  | _ => none

/-- The value at `config[0].value.<k>` of a document. -/
def valueField (k : String) (doc : Json) : Option Json :=
  match configField "value" doc with
  | some (.obj value) => lookup k value
  | _ => none

/-! ## Response interpreter: `ScansHTTPWrapper.Get`, `ScansHTTPWrapper.Tags` -/

/-- The error schema `scansApi.ErrorModel`: a code and a message. -/
structure ErrorModel where
  code : Int
  message : String
deriving DecidableEq

/-- What `json.Decoder.Decode` into a value of type `α` reports for a body:
the decoded value or the error text. -/
abbrev Decode (α : Type) := String → Except String α

/-- The three results of `Get` and `Tags`: success model, error model and
error, each `none` for nil. -/
structure Outcome (α : Type) where
  model : Option α
  errorModel : Option ErrorModel
  err : Option String
deriving DecidableEq

/-- The message of `errors.Wrapf(err, msg)`. -/
def wrapf (err msg : String) : String := msg ++ ": " ++ err

/-- The constant `failedToParseGetAll`. -/
def failedToParseGetAll : String := "Failed to parse get-all response"

/-- The constant `failedToParseTags`. -/
def failedToParseTags : String := "Failed to parse tags response"

/-- `ScansHTTPWrapper.Get`. `resp` is what the request reports: an error,
or the status code and body of the response. `decodeOk` decodes a
`SlicedScansResponseModel`, of type `α` here. -/
def ScansHTTPWrapper.Get {α : Type} (decodeError : Decode ErrorModel) (decodeOk : Decode α)
    (resp : Except String (Int × String)) : Outcome α :=
  match resp with
  | .error err => ⟨none, none, some err⟩
  | .ok (statusCode, body) =>
    if statusCode = 400 ∨ statusCode = 500 then
      match decodeError body with
      | .error err => ⟨none, none, some (wrapf err failedToParseGetAll)⟩
      | .ok errorModel => ⟨none, some errorModel, none⟩
    else if statusCode = 200 then
      match decodeOk body with
      | .error err => ⟨none, none, some (wrapf err failedToParseGetAll)⟩
      | .ok model => ⟨some model, none, none⟩
    else ⟨none, none, some ("Unknown response status code " ++ toString statusCode)⟩

/-- `ScansHTTPWrapper.Tags`. `decodeOk` decodes a `[]string`. -/
def ScansHTTPWrapper.Tags (decodeError : Decode ErrorModel) (decodeOk : Decode (List String))
    (resp : Except String (Int × String)) : Outcome (List String) :=
  match resp with
  | .error err => ⟨none, none, some err⟩
  | .ok (statusCode, body) =>
    if statusCode = 400 ∨ statusCode = 500 then
      match decodeError body with
      | .error err => ⟨none, none, some (wrapf err failedToParseTags)⟩
      | .ok errorModel => ⟨none, some errorModel, none⟩
    else if statusCode = 200 then
      match decodeOk body with
      | .error err => ⟨none, none, some (wrapf err failedToParseTags)⟩
      | .ok tags => ⟨some tags, none, none⟩
    else ⟨none, none, some ("Unknown response status code " ++ toString statusCode)⟩

/-- Exactly one of the three results is populated. -/
def Outcome.exactlyOne {α : Type} (r : Outcome α) : Prop :=
  (r.model.isSome ∧ r.errorModel = none ∧ r.err = none) ∨
  (r.model = none ∧ r.errorModel.isSome ∧ r.err = none) ∨
  (r.model = none ∧ r.errorModel = none ∧ r.err.isSome)

/-- Removes the leading characters `p` from a character list, `none` when
it does not start with them. -/
def stripLeading : List Char → List Char → Option (List Char)
  | [], s => some s
  | _ :: _, [] => none
  | p :: ps, c :: cs => if p = c then stripLeading ps cs else none

/-- The number written by a list of decimal digits, the most significant
first. -/
def digitsValue (ds : List Char) : Nat :=
  ds.foldl (fun n d => 10 * n + (d.toNat - '0'.toNat)) 0

/-- A decoder for the compact bodies `{"code":N,"message":"S"}`
with `N` a run of digits and `S` free of quotes, standing for
`json.Decoder.Decode` into an `ErrorModel` in the examples. -/
def sampleDecodeError : Decode ErrorModel := fun body =>
  match stripLeading "\x7b\"code\":".data body.data with
  | none => .error "invalid character"
  | some s1 =>
    match stripLeading ",\"message\":\"".data (s1.dropWhile Char.isDigit) with
    | none => .error "invalid character"
    | some s2 =>
      if (s1.takeWhile Char.isDigit) ≠ [] ∧ s2.dropWhile (fun c => c != '"') = "\"\x7d".data then
        .ok ⟨digitsValue (s1.takeWhile Char.isDigit), ⟨s2.takeWhile (fun c => c != '"')⟩⟩
      else .error "invalid character"

/-- A decoder of a list of strings that accepts only the empty array, for
the examples. -/
def sampleDecodeTags : Decode (List String) := fun body =>
  if body = "[]" then .ok [] else .error "invalid character"

/-- The shape of a base document under which every step of
`updateScanRequestValues` is defined: `project`, when present, is an object,
and `config`, when present, is a non-empty array whose first element is an
object with `value` absent or an object. -/
def wellShaped (m : JsonMap) : Prop :=
  (lookup "project" m = none ∨ ∃ p, lookup "project" m = some (.obj p)) ∧
  (lookup "config" m = none ∨
    ∃ c0 rest, lookup "config" m = some (.arr (.obj c0 :: rest)) ∧
      (lookup "value" c0 = none ∨ ∃ value, lookup "value" c0 = some (.obj value)))

/-- The value of `config[0]` at `value` is nil (absent or null) or an object. -/
def valueOk (c0 : JsonMap) : Prop :=
  isNil (lookup "value" c0) = true ∨ ∃ value, lookup "value" c0 = some (.obj value)

/-- A base document in which `project`, when present, is an object and
`config`, when present, is a non-empty array of objects. -/
def looseShaped (m : JsonMap) : Prop :=
  (lookup "project" m = none ∨ ∃ p, lookup "project" m = some (.obj p)) ∧
  (lookup "config" m = none ∨
    ∃ items, lookup "config" m = some (.arr items) ∧ items ≠ [] ∧
      ∀ i ∈ items, ∃ o, i = .obj o)

/-- The value of `config[0]` at `value` is nil or an object, unless neither
the incremental flag nor the preset name is given. -/
def valueShaped (m : JsonMap) (cmd : Flags) : Prop :=
  (cmd.incremental = "" ∧ cmd.presetName = "") ∨
    ∀ c0 rest, lookup "config" m = some (.arr (.obj c0 :: rest)) → valueOk c0

/-- The five paths written by `updateScanRequestValues`, read in a document:
`project.id`, `project.type`, `config[0].type`, `config[0].value.incremental`
and `config[0].value.presetName`. -/
def pathProjectId (doc : Json) : Option Json := projectField "id" doc

/-- The value at `project.type`. -/
def pathProjectType (doc : Json) : Option Json := projectField "type" doc

/-- The value at `config[0].type`. -/
def pathConfigType (doc : Json) : Option Json := configField "type" doc

/-- The value at `config[0].value.incremental`. -/
def pathIncremental (doc : Json) : Option Json := valueField "incremental" doc

/-- The value at `config[0].value.presetName`. -/
def pathPresetName (doc : Json) : Option Json := valueField "presetName" doc

/-- Whether a value is a JSON object. -/
def isObj : Option Json → Bool
  | some (.obj _) => true
  | _ => false

/-- What is observed of a document: the values at the five paths, and
whether `config[0].value` is nil (absent or null) or an object. -/
structure Paths where
  projectId : Option Json
  projectType : Option Json
  configType : Option Json
  incremental : Option Json
  presetName : Option Json
  valueNil : Bool
  valueObj : Bool

/-- The observation of a document. -/
def paths (doc : Json) : Paths where
  projectId := pathProjectId doc
  projectType := pathProjectType doc
  configType := pathConfigType doc
  incremental := pathIncremental doc
  presetName := pathPresetName doc
  valueNil := isNil (configField "value" doc)
  valueObj := isObj (configField "value" doc)

/-- The value at `project` of a document. -/
def projectOf : Json → Option Json
  | .obj info => lookup "project" info
  | _ => none

/-- The base documents on which `updateScanRequestValues` completes with a
project object and a value object: `project` is nil (absent or null) or an
object, and `config` is nil or a non-empty array whose first element is an
object with `value` nil or an object. -/
def synthShaped (m : JsonMap) : Prop :=
  (isNil (lookup "project" m) = true ∨ ∃ p, lookup "project" m = some (.obj p)) ∧
  (isNil (lookup "config" m) = true ∨
    ∃ c0 rest, lookup "config" m = some (.arr (.obj c0 :: rest)) ∧ valueOk c0)

/-- The document has a `project` object and a `config` array whose first
element is an object with an object at `value`. -/
def synthesized (out : Json) : Prop :=
  (∃ p, projectOf out = some (.obj p)) ∧ ∃ value, configField "value" out = some (.obj value)

/-! ## The create command: `determineSourceType`, `runCreateScanCommand` -/

/-- The constant `failedCreating`. -/
def failedCreating : String := "Failed creating a scan"

/-- The flags of the create command. -/
structure CreateFlags where
  inputFile : String
  sources : String
  sourceDir : String
  sourceDirFilter : String
  sourceExclusionFilter : String
  overrides : Flags

/-- What the create command uses from outside `scan.go`, for a request type
`Scan`, a response type `Resp` and a view type `View`: reading the input
file (an error, or its contents decoded, `none` when they are not valid
JSON), `json.Unmarshal` into the request, the assignment of its
`UploadURL`, `path.Match`, what `compressFolder` finds (the temporary file,
the closing of the archive, the tree at a directory), the upload channel,
the scan service, and the presentation (`toScanView`, `none` for a panic,
and `printByFormat`, `none` for a nil error). -/
structure CreateEnv (Scan Resp View : Type) where
  readInput : String → Except String (Option Json)
  unmarshalScan : Json → Except String Scan
  setUploadURL : Scan → String → Scan
  pathMatch : PathMatch
  tempFile : Option String
  closeOk : Bool
  readDir : String → Dir
  uploadFile : String → Except String String
  create : Scan → Outcome Resp
  toScanView : Resp → Option View
  printByFormat : View → Option String

/-- What a run of the create command does: the files given to the upload
channel, the requests given to the scan service, and the error returned
(`none` for nil), or `none` when the command crashes. -/
structure Run (Scan : Type) where
  uploaded : List String
  created : List Scan
  result : Option (Option String)

/-- `determineSourceType`: the files uploaded, and the two results
`(url, err)`, or `none` when `compressFolder` does not return. -/
def determineSourceType {Scan Resp View : Type} (env : CreateEnv Scan Resp View)
    (sourcesFile sourceDir sourceDirFilter sourceExclusionFilter : String) :
    List String × Option (String × Option String) :=
  match (if sourceDir ≠ "" then
      (compressFolder env.pathMatch env.tempFile env.closeOk (env.readDir sourceDir)
        sourceDirFilter sourceExclusionFilter).map (fun r => r.path)
    else some sourcesFile) with
  | none => ([], none)
  | some file =>
    if file ≠ "" then
      match env.uploadFile file with
      | .error err =>
        ([file], some ("", some (wrapf err (failedCreating ++ ": Failed to upload sources file\n"))))
      | .ok preSignedURL => ([file], some (preSignedURL, none))
    else ([], some ("", none))

/-- The function returned by `runCreateScanCommand`, run on the flags. -/
def runCreateScanCommand {Scan Resp View : Type} (env : CreateEnv Scan Resp View)
    (cmd : CreateFlags) : Run Scan :=
  match (if cmd.inputFile ≠ "" then env.readInput cmd.inputFile
    else .ok (some (.obj []))) with
  | .error err => ⟨[], [], some (some (wrapf err (failedCreating ++ ": Failed to open input file")))⟩
  | .ok input =>
    match updateScanRequestValues input cmd.overrides with
    | none => ⟨[], [], none⟩
    | some doc =>
      match env.unmarshalScan doc with
      | .error err => ⟨[], [], some (some (wrapf err (failedCreating ++ ": Input in bad format")))⟩
      | .ok scanModel =>
        match determineSourceType env cmd.sources cmd.sourceDir cmd.sourceDirFilter
            cmd.sourceExclusionFilter with
        | (uploaded, none) => ⟨uploaded, [], none⟩
        | (uploaded, some (_, some err)) => ⟨uploaded, [], some (some err)⟩
        | (uploaded, some (url, none)) =>
          match env.create (env.setUploadURL scanModel url) with
          | ⟨_, _, some err⟩ =>
            ⟨uploaded, [env.setUploadURL scanModel url], some (some (wrapf err failedCreating))⟩
          | ⟨_, some errorModel, none⟩ =>
            ⟨uploaded, [env.setUploadURL scanModel url],
              some (some (failedCreating ++ ": CODE: " ++ toString errorModel.code ++ ", " ++
                errorModel.message ++ "\n"))⟩
          | ⟨some scanResponseModel, none, none⟩ =>
            match env.toScanView scanResponseModel with
            | none => ⟨uploaded, [env.setUploadURL scanModel url], none⟩
            | some view =>
              match env.printByFormat view with
              | some err =>
                ⟨uploaded, [env.setUploadURL scanModel url],
                  some (some (wrapf err (failedCreating ++ "\n")))⟩
              | none => ⟨uploaded, [env.setUploadURL scanModel url], some none⟩
          | ⟨none, none, none⟩ => ⟨uploaded, [env.setUploadURL scanModel url], some none⟩

/-- An environment for the examples: the input file holds the JSON array
`[]`, the request deserializer accepts no document, and nothing else is
reached. -/
def sampleEnv : CreateEnv String String String where
  readInput := fun _ => .ok (some (.arr []))
  unmarshalScan := fun _ => .error "json: cannot unmarshal"
  setUploadURL := fun scan _ => scan
  pathMatch := pathMatch
  tempFile := some "cx-1.zip"
  closeOk := true
  readDir := fun _ => sampleRoot
  uploadFile := fun _ => .ok "url"
  create := fun _ => ⟨none, none, none⟩
  toScanView := fun resp => some resp
  printByFormat := fun _ => none

/-! ### Facts about the filter loop -/

theorem data_eq_nil_iff (p : String) : p.data = [] ↔ p = "" := by
  constructor
  · intro h
    cases p
    simp_all
  · intro h
    subst h
    rfl

theorem filterStep_eq_none_iff (pm : PathMatch) (f : String) (st : FilterState) (p : String) :
    filterStep pm f st p = none ↔ p = "" := by
  rw [← data_eq_nil_iff]
  unfold filterStep
  cases h : p.data with
  | nil => simp
  | cons c cs =>
    simp only [reduceCtorEq, iff_false]
    split <;> simp

theorem filterLoop_eq_none_iff (pm : PathMatch) (f : String) (filters : List String) :
    ∀ st, filterLoop pm f st filters = none ↔ "" ∈ filters := by
  induction filters with
  | nil => intro st; simp [filterLoop]
  | cons p rest ih =>
    intro st
    unfold filterLoop
    cases h : filterStep pm f st p with
    | none =>
      have := (filterStep_eq_none_iff pm f st p).1 h
      simp [this]
    | some st1 =>
      have hp : p ≠ "" := by
        intro hp
        have := (filterStep_eq_none_iff pm f st p).2 hp
        simp [this] at h
      simp only [ih st1, List.mem_cons]
      constructor
      · intro h1; exact Or.inr h1
      · intro h1
        rcases h1 with h1 | h1
        · exact absurd h1.symm hp
        · exact h1

theorem filterLoop_some (pm : PathMatch) (f : String) (filters : List String) :
    ∀ st st1, filterLoop pm f st filters = some st1 →
      st1.matched = (if hasInclusion filters then
          ((!st.firstMatch && st.matched) || anyInclusion pm f filters) else st.matched) ∧
      st1.firstMatch = (st.firstMatch && !hasInclusion filters) ∧
      st1.excluded = (st.excluded || anyExclusion pm f filters) := by
  induction filters with
  | nil =>
    intro st st1 h
    simp [filterLoop] at h
    subst h
    simp [hasInclusion, anyInclusion, anyExclusion]
  | cons p rest ih =>
    intro st st1 h
    unfold filterLoop at h
    cases h2 : filterStep pm f st p with
    | none => simp [h2] at h
    | some st2 =>
      simp only [h2] at h
      obtain ⟨ih1, ih2, ih3⟩ := ih st2 st1 h
      unfold filterStep at h2
      cases hd : p.data with
      | nil => simp [hd] at h2
      | cons c cs =>
        simp only [hd] at h2
        have hstrip : stripMarker p = ⟨cs⟩ := by simp [stripMarker, hd]
        by_cases hc : c = '!'
        · have hex : isExclusion p := by simp [isExclusion, hd, hc]
          simp only [hc, if_true, Option.some.injEq] at h2
          subst h2
          rcases st with ⟨m, fm, e⟩
          simp only [hasInclusion, anyInclusion, anyExclusion, List.any_cons, hex, hstrip] at *
          rw [ih1, ih2, ih3]
          cases m <;> cases fm <;> cases e <;> simp
        · have hex : ¬ isExclusion p := by simp [isExclusion, hd, hc]
          simp only [hc, if_false, Option.some.injEq] at h2
          subst h2
          rcases st with ⟨m, fm, e⟩
          simp only [hasInclusion, anyInclusion, anyExclusion, List.any_cons, hex] at *
          rw [ih1, ih2, ih3]
          cases m <;> cases fm <;> cases e <;> cases (pm p f).1 <;> simp <;>
            exact fun x hx h1 _ => ⟨x, hx, h1⟩

theorem filterMatched_eq_none_iff (pm : PathMatch) (filters : List String) (f : String) :
    filterMatched pm filters f = none ↔ "" ∈ filters := by
  unfold filterMatched
  rw [← filterLoop_eq_none_iff pm f filters ⟨true, true, false⟩]
  split <;> simp_all

theorem filterMatched_some (pm : PathMatch) (filters : List String) (f : String)
    (included excluded : Bool) (h : filterMatched pm filters f = some (included, excluded)) :
    included = (!hasInclusion filters || anyInclusion pm f filters) ∧
      excluded = anyExclusion pm f filters := by
  unfold filterMatched at h
  split at h
  · simp at h
  · rename_i st hst
    obtain ⟨h1, _, h3⟩ := filterLoop_some pm f filters _ st hst
    simp only [Option.some.injEq, Prod.mk.injEq] at h
    rw [← h.1, ← h.2, h1, h3]
    cases hasInclusion filters <;> simp

theorem hasInclusion_eq_false_iff (filters : List String) :
    hasInclusion filters = false ↔ ∀ p ∈ filters, isExclusion p := by
  simp [hasInclusion]

theorem anyInclusion_iff (pm : PathMatch) (f : String) (filters : List String) :
    anyInclusion pm f filters = true ↔ ∃ p ∈ filters, ¬ isExclusion p ∧ (pm p f).1 = true := by
  simp [anyInclusion]

theorem anyExclusion_iff (pm : PathMatch) (f : String) (filters : List String) :
    anyExclusion pm f filters = true ↔
      ∃ p ∈ filters, isExclusion p ∧ (pm (stripMarker p) f).1 = true := by
  simp [anyExclusion]

/-! ## The filter engine -/

/-- C1: for every file name and every rule list, `filterMatched` returns a
verdict exactly when no pattern is the empty string, and in every verdict
it returns the first result `included` is true iff the list holds no
pattern without a leading `!` or the name matches, by `path.Match`, at
least one pattern without a leading `!`; for a non-empty list of such
patterns only, the file is kept (`included && !excluded`) iff the name
matches some pattern of the list. On a list with an empty pattern indexing
`filter[0]` fails and there is no verdict: with the rules `*.txt` and the
empty pattern, the name `a.txt` matches the inclusion `*.txt` and the call
panics. -/
theorem filterMatched_included :
    (∀ (pm : PathMatch) (filters : List String) (f : String),
      (filterMatched pm filters f = none ↔ "" ∈ filters) ∧
      ∀ included excluded, filterMatched pm filters f = some (included, excluded) →
        (included = true ↔
          ((∀ p ∈ filters, isExclusion p) ∨
            ∃ p ∈ filters, ¬ isExclusion p ∧ (pm p f).1 = true)) ∧
        (filters ≠ [] → (∀ p ∈ filters, ¬ isExclusion p) →
          ((included && !excluded) = true ↔ ∃ p ∈ filters, (pm p f).1 = true))) ∧
    (splitComma "*.txt," = ["*.txt", ""] ∧
      filterMatched pathMatch ["*.txt", ""] "a.txt" = none ∧
      (pathMatch "*.txt" "a.txt").1 = true) := by
  refine ⟨?_, by decide, by decide, by decide⟩
  intro pm filters f
  refine ⟨filterMatched_eq_none_iff pm filters f, ?_⟩
  intro included excluded h
  obtain ⟨hi, he⟩ := filterMatched_some pm filters f included excluded h
  constructor
  · rw [hi, Bool.or_eq_true, Bool.not_eq_true', hasInclusion_eq_false_iff, anyInclusion_iff]
  · intro hne hall
    have hex : excluded = false := by
      rw [he]
      cases hx : anyExclusion pm f filters with
      | false => rfl
      | true =>
        obtain ⟨p, hp, hpe, _⟩ := (anyExclusion_iff pm f filters).1 hx
        exact absurd hpe (hall p hp)
    have hhas : hasInclusion filters = true := by
      cases hx : hasInclusion filters with
      | true => rfl
      | false =>
        have h1 := (hasInclusion_eq_false_iff filters).1 hx
        cases filters with
        | nil => exact absurd rfl hne
        | cons p rest =>
          exact absurd (h1 p (List.mem_cons_self p rest)) (hall p (List.mem_cons_self p rest))
    rw [hex, hi, hhas]
    simp only [Bool.not_true, Bool.false_or, Bool.not_false, Bool.and_true]
    rw [anyInclusion_iff]
    constructor
    · rintro ⟨p, hp, _, hm⟩
      exact ⟨p, hp, hm⟩
    · rintro ⟨p, hp, hm⟩
      exact ⟨p, hp, hall p hp, hm⟩

/-- C1, at a concrete input without an empty pattern: with the rules `*.txt`
and `!b*` the name `a.txt` gets the verdict `(true, false)`. -/
theorem filterMatched_included_witness :
    filterMatched pathMatch ["*.txt", "!b*"] "a.txt" = some (true, false) ∧
    (true = true ↔
      ((∀ p ∈ ["*.txt", "!b*"], isExclusion p) ∨
        ∃ p ∈ ["*.txt", "!b*"], ¬ isExclusion p ∧ (pathMatch p "a.txt").1 = true)) :=
  ⟨by decide,
   ((filterMatched_included.1 pathMatch ["*.txt", "!b*"] "a.txt").2 true false
      (by decide)).1⟩

/-- C2: for every file name and every rule list, `filterMatched` returns a
verdict exactly when no pattern is the empty string, and in every verdict
it returns the second result `excluded` is true iff the name matches, by
`path.Match`, at least one pattern with a leading `!`, the marker stripped;
hence a name matching such a pattern is never kept
(`included && !excluded` is false), whatever the other patterns are and
wherever the exclusion stands. On a list with an empty pattern there is no
verdict: with the rules `!a*` and the empty pattern, the name `a.txt`
matches the exclusion and the call panics. -/
theorem filterMatched_excluded :
    (∀ (pm : PathMatch) (filters : List String) (f : String),
      ((filterMatched pm filters f).isSome = true ↔ "" ∉ filters) ∧
      ∀ included excluded, filterMatched pm filters f = some (included, excluded) →
        (excluded = true ↔
          ∃ p ∈ filters, isExclusion p ∧ (pm (stripMarker p) f).1 = true) ∧
        ((∃ p ∈ filters, isExclusion p ∧ (pm (stripMarker p) f).1 = true) →
          (included && !excluded) = false)) ∧
    (splitComma "!a*," = ["!a*", ""] ∧
      filterMatched pathMatch ["!a*", ""] "a.txt" = none ∧
      (pathMatch (stripMarker "!a*") "a.txt").1 = true) := by
  refine ⟨?_, by decide, by decide, by decide⟩
  intro pm filters f
  constructor
  · cases h : filterMatched pm filters f with
    | none => simp [(filterMatched_eq_none_iff pm filters f).1 h]
    | some r =>
      simp only [Option.isSome_some, true_iff]
      intro hmem
      rw [(filterMatched_eq_none_iff pm filters f).2 hmem] at h
      exact absurd h (by simp)
  · intro included excluded h
    obtain ⟨_, he⟩ := filterMatched_some pm filters f included excluded h
    have hiff : excluded = true ↔
        ∃ p ∈ filters, isExclusion p ∧ (pm (stripMarker p) f).1 = true := by
      rw [he, anyExclusion_iff]
    refine ⟨hiff, ?_⟩
    intro hex
    rw [hiff.2 hex]
    simp

/-- C2, at a concrete input without an empty pattern: with the rules `!a*`
and `*.txt` the name `a.txt` is excluded and not kept. -/
theorem filterMatched_excluded_witness :
    filterMatched pathMatch ["!a*", "*.txt"] "a.txt" = some (true, true) ∧
    (true = true ↔
      ∃ p ∈ ["!a*", "*.txt"], isExclusion p ∧ (pathMatch (stripMarker p) "a.txt").1 = true) :=
  ⟨by decide,
   ((filterMatched_excluded.1 pathMatch ["!a*", "*.txt"] "a.txt").2 true true
      (by decide)).1⟩
/-! ### Facts about the packaging walk -/

theorem fileVerdict_isSome (pm : PathMatch) (filters : Option (List String)) (name : String)
    (hf : ∀ fs, filters = some fs → "" ∉ fs) : (fileVerdict pm filters name).isSome = true := by
  cases filters with
  | none => rfl
  | some fs =>
    simp only [fileVerdict]
    cases h : filterMatched pm fs name with
    | none => exact absurd ((filterMatched_eq_none_iff pm fs name).1 h) (hf fs rfl)
    | some r => rfl

theorem fileVerdict_eq_none (pm : PathMatch) (filters : Option (List String)) (name : String)
    (h : fileVerdict pm filters name = none) : ∃ fs, filters = some fs ∧ "" ∈ fs := by
  cases filters with
  | none => simp [fileVerdict] at h
  | some fs => exact ⟨fs, rfl, (filterMatched_eq_none_iff pm fs name).1 h⟩

theorem kept_eq_false (pm : PathMatch) (filters : Option (List String)) (name : String)
    (h : ∃ fs, filters = some fs ∧ "" ∈ fs) : kept pm filters name = false := by
  obtain ⟨fs, rfl, hfs⟩ := h
  simp [kept, fileVerdict, (filterMatched_eq_none_iff pm fs name).2 hfs]

theorem filter_kept_eq_nil (pm : PathMatch) (filters : Option (List String))
    (h : ∃ fs, filters = some fs ∧ "" ∈ fs) (files : List TreeFile) :
    files.filter (fun x => kept pm filters x.name) = [] := by
  rw [List.filter_eq_nil_iff]
  intro x _
  simp [kept_eq_false pm filters x.name h]

mutual
theorem addDirFiles_walk (pm : PathMatch) (filters exclusions : Option (List String)) :
    ∀ (tree : Dir) (zip : Archive) (baseDir : String),
      (addDirFiles pm zip baseDir tree filters exclusions).zip =
        zip ++ (tree.files.filter (fun x => kept pm filters x.name)).map
          (fun x => (baseDir ++ joinPath x.dirs x.name, readFile x.contents x.failure)) ∧
      ((addDirFiles pm zip baseDir tree filters exclusions).panicked = true →
        ∃ fs, filters = some fs ∧ "" ∈ fs)
  | .unreadable, zip, baseDir => by simp [addDirFiles, Dir.files]
  | .listing es, zip, baseDir => by
    simpa [addDirFiles, Dir.files] using addDirFilesLoop_walk pm filters exclusions es zip baseDir
theorem addDirFilesLoop_walk (pm : PathMatch) (filters exclusions : Option (List String)) :
    ∀ (files : Entries) (zip : Archive) (baseDir : String),
      (addDirFilesLoop pm zip baseDir files filters exclusions).zip =
        zip ++ (files.files.filter (fun x => kept pm filters x.name)).map
          (fun x => (baseDir ++ joinPath x.dirs x.name, readFile x.contents x.failure)) ∧
      ((addDirFilesLoop pm zip baseDir files filters exclusions).panicked = true →
        ∃ fs, filters = some fs ∧ "" ∈ fs)
  | .nil, zip, baseDir => by simp [addDirFilesLoop, Entries.files]
  | .cons file rest, zip, baseDir => by
    obtain ⟨e1, p1⟩ := addDirFilesBody_walk pm filters exclusions file zip baseDir
    simp only [addDirFilesLoop]
    cases hp : (addDirFilesBody pm zip baseDir file filters exclusions).panicked with
    | true =>
      simp only [if_true]
      refine ⟨?_, fun _ => p1 hp⟩
      rw [e1]
      simp [Entries.files, List.filter_append, filter_kept_eq_nil pm filters (p1 hp)]
    | false =>
      simp only [Bool.false_eq_true, if_false]
      obtain ⟨e2, p2⟩ := addDirFilesLoop_walk pm filters exclusions rest
        (addDirFilesBody pm zip baseDir file filters exclusions).zip baseDir
      refine ⟨?_, p2⟩
      rw [e2, e1]
      simp [Entries.files, List.filter_append]
theorem addDirFilesBody_walk (pm : PathMatch) (filters exclusions : Option (List String)) :
    ∀ (file : Entry) (zip : Archive) (baseDir : String),
      (addDirFilesBody pm zip baseDir file filters exclusions).zip =
        zip ++ (file.files.filter (fun x => kept pm filters x.name)).map
          (fun x => (baseDir ++ joinPath x.dirs x.name, readFile x.contents x.failure)) ∧
      ((addDirFilesBody pm zip baseDir file filters exclusions).panicked = true →
        ∃ fs, filters = some fs ∧ "" ∈ fs)
  | .file name contents failure, zip, baseDir => by
    simp only [addDirFilesBody]
    cases hv : fileVerdict pm filters name with
    | none =>
      have hbad := fileVerdict_eq_none pm filters name hv
      simp [Entry.files, kept, hv, hbad]
    | some v =>
      obtain ⟨matched, excluded⟩ := v
      by_cases hk : (matched && !excluded) = true
      · simp [Entry.files, kept, hv, hk, joinPath]
      · simp [Entry.files, kept, hv, hk]
  | .dir name sub, zip, baseDir => by
    obtain ⟨e, p⟩ := addDirFiles_walk pm filters exclusions sub zip (baseDir ++ name ++ "/")
    simp only [addDirFilesBody]
    refine ⟨?_, p⟩
    rw [e]
    simp [Entry.files, List.filter_map, joinPath, Function.comp_def, String.append_assoc]
end

mutual
theorem addDirFiles_returns (pm : PathMatch) (filters exclusions : Option (List String))
    (hf : ∀ fs, filters = some fs → "" ∉ fs) :
    ∀ (tree : Dir) (zip : Archive) (baseDir : String),
      (addDirFiles pm zip baseDir tree filters exclusions).panicked = false
  | .unreadable, zip, baseDir => by simp [addDirFiles]
  | .listing es, zip, baseDir => by
    simpa [addDirFiles] using addDirFilesLoop_returns pm filters exclusions hf es zip baseDir
theorem addDirFilesLoop_returns (pm : PathMatch) (filters exclusions : Option (List String))
    (hf : ∀ fs, filters = some fs → "" ∉ fs) :
    ∀ (files : Entries) (zip : Archive) (baseDir : String),
      (addDirFilesLoop pm zip baseDir files filters exclusions).panicked = false
  | .nil, zip, baseDir => by simp [addDirFilesLoop]
  | .cons file rest, zip, baseDir => by
    simp only [addDirFilesLoop,
      addDirFilesBody_returns pm filters exclusions hf file zip baseDir]
    exact addDirFilesLoop_returns pm filters exclusions hf rest _ baseDir
theorem addDirFilesBody_returns (pm : PathMatch) (filters exclusions : Option (List String))
    (hf : ∀ fs, filters = some fs → "" ∉ fs) :
    ∀ (file : Entry) (zip : Archive) (baseDir : String),
      (addDirFilesBody pm zip baseDir file filters exclusions).panicked = false
  | .file name contents failure, zip, baseDir => by
    simp only [addDirFilesBody]
    have h1 := fileVerdict_isSome pm filters name hf
    cases hv : fileVerdict pm filters name with
    | none => simp [hv] at h1
    | some v =>
      obtain ⟨matched, excluded⟩ := v
      simp only
      split <;> rfl
  | .dir name sub, zip, baseDir => by
    simpa [addDirFilesBody] using
      addDirFiles_returns pm filters exclusions hf sub zip (baseDir ++ name ++ "/")
end

mutual
theorem addDirFiles_exclusions (pm : PathMatch) (filters e1 e2 : Option (List String)) :
    ∀ (tree : Dir) (zip : Archive) (baseDir : String),
      addDirFiles pm zip baseDir tree filters e1 = addDirFiles pm zip baseDir tree filters e2
  | .unreadable, zip, baseDir => by simp [addDirFiles]
  | .listing es, zip, baseDir => by
    simpa [addDirFiles] using addDirFilesLoop_exclusions pm filters e1 e2 es zip baseDir
theorem addDirFilesLoop_exclusions (pm : PathMatch) (filters e1 e2 : Option (List String)) :
    ∀ (files : Entries) (zip : Archive) (baseDir : String),
      addDirFilesLoop pm zip baseDir files filters e1 =
        addDirFilesLoop pm zip baseDir files filters e2
  | .nil, zip, baseDir => by simp [addDirFilesLoop]
  | .cons file rest, zip, baseDir => by
    simp only [addDirFilesLoop]
    rw [addDirFilesBody_exclusions pm filters e1 e2 file zip baseDir,
      addDirFilesLoop_exclusions pm filters e1 e2 rest _ baseDir]
theorem addDirFilesBody_exclusions (pm : PathMatch) (filters e1 e2 : Option (List String)) :
    ∀ (file : Entry) (zip : Archive) (baseDir : String),
      addDirFilesBody pm zip baseDir file filters e1 =
        addDirFilesBody pm zip baseDir file filters e2
  | .file name contents failure, zip, baseDir => by simp [addDirFilesBody]
  | .dir name sub, zip, baseDir => by
    simpa [addDirFilesBody] using
      addDirFiles_exclusions pm filters e1 e2 sub zip (baseDir ++ name ++ "/")
end

mutual
theorem dir_files_read (tree : Dir) (h : tree.readsSucceed = true) :
    ∀ x ∈ tree.files, x.failure = none :=
  match tree, h with
  | .listing es, h => by
    simpa [Dir.files] using entries_files_read es (by simpa [Dir.readsSucceed] using h)
theorem entries_files_read (es : Entries) (h : es.readsSucceed = true) :
    ∀ x ∈ es.files, x.failure = none :=
  match es, h with
  | .nil, _ => by simp [Entries.files]
  | .cons e rest, h => by
    simp only [Entries.readsSucceed, Bool.and_eq_true] at h
    intro x hx
    simp only [Entries.files, List.mem_append] at hx
    rcases hx with hx | hx
    · exact entry_files_read e h.1 x hx
    · exact entries_files_read rest h.2 x hx
theorem entry_files_read (e : Entry) (h : e.readsSucceed = true) :
    ∀ x ∈ e.files, x.failure = none :=
  match e, h with
  | .file name contents failure, h => by
    simp only [Entry.readsSucceed, Option.isNone_iff_eq_none] at h
    intro x hx
    simp only [Entry.files, List.mem_singleton] at hx
    subst hx
    exact h
  | .dir name sub, h => by
    simp only [Entry.readsSucceed] at h
    intro x hx
    simp only [Entry.files, List.mem_map] at hx
    obtain ⟨y, hy, rfl⟩ := hx
    exact dir_files_read sub h y hy
end

theorem compressFolder_some (pm : PathMatch) (tempFile : Option String) (closeOk : Bool)
    (root : Dir) (filter sourceExclusionFilter : String) (r : Compressed)
    (h : compressFolder pm tempFile closeOk root filter sourceExclusionFilter = some r) :
    tempFile = some r.path ∧ closeOk = true ∧ r.err = none ∧
      r.archive = keptEntries pm (if filter.length > 0 then some (splitComma filter) else none)
        "/" root := by
  unfold compressFolder at h
  simp only at h
  cases tempFile with
  | none => simp at h
  | some outputFile =>
    simp only at h
    cases hp : (addDirFiles pm [] "/" root
        (if filter.length > 0 then some (splitComma filter) else none)
        (if sourceExclusionFilter.length > 0 then some (splitComma sourceExclusionFilter)
          else none)).panicked with
    | true => simp [hp] at h
    | false =>
      cases closeOk with
      | false => simp [hp] at h
      | true =>
        simp only [hp, Bool.false_eq_true, if_false, if_true, Option.some.injEq] at h
        rw [← h]
        simp [(addDirFiles_walk pm _ _ root [] "/").1, keptEntries]

theorem head_append_slash (s : String) : ("/" ++ s).data.head? = some '/' := by
  simp [String.data_append]

/-! ## The tree packager -/

/-- C3: for every directory tree whose reads all succeed and every filter
list, the entries that `addDirFiles` adds to the archive are exactly the
files of the tree, at any depth, whose base name gets the verdict
`matched && !excluded` from `filterMatched` (every file when the filter
list is nil): one entry per file, in listing order, named `baseDir`
followed by the names of the directories leading to the file, each with a
`/`, and the base name, and holding the contents of the file. The call
returns whenever no pattern is the empty string. -/
theorem addDirFiles_entries (pm : PathMatch) (zip : Archive) (baseDir : String) (tree : Dir)
    (filters exclusions : Option (List String)) (hreads : tree.readsSucceed = true) :
    (addDirFiles pm zip baseDir tree filters exclusions).zip =
      zip ++ (tree.files.filter (fun x => kept pm filters x.name)).map
        (fun x => (baseDir ++ joinPath x.dirs x.name, x.contents)) ∧
    (filters = none → ∀ x ∈ tree.files, kept pm filters x.name = true) ∧
    ((∀ fs, filters = some fs → "" ∉ fs) →
      (addDirFiles pm zip baseDir tree filters exclusions).panicked = false) := by
  refine ⟨?_, ?_, fun hf => addDirFiles_returns pm filters exclusions hf tree zip baseDir⟩
  · rw [(addDirFiles_walk pm filters exclusions tree zip baseDir).1]
    congr 1
    apply List.map_congr_left
    intro x hx
    rw [dir_files_read tree hreads x (List.mem_filter.1 hx).1]
    rfl
  · intro hnil x _
    subst hnil
    rfl

/-- C3, at the example of the specification: a root holding `a.txt` and
`b.log`, packaged with the inclusion filter `*.txt`, gives an archive
holding exactly `a.txt`, with its contents. -/
theorem addDirFiles_entries_witness :
    sampleRoot.readsSucceed = true ∧
    addDirFiles pathMatch [] "/" sampleRoot (some ["*.txt"]) none =
      ⟨[("/a.txt", [104, 105])], false⟩ ∧
    (addDirFiles pathMatch [] "/" sampleRoot (some ["*.txt"]) none).zip =
      [] ++ (sampleRoot.files.filter (fun x => kept pathMatch (some ["*.txt"]) x.name)).map
        (fun x => ("/" ++ joinPath x.dirs x.name, x.contents)) :=
  ⟨by decide, by decide,
   (addDirFiles_entries pathMatch [] "/" sampleRoot (some ["*.txt"]) none (by decide)).1⟩

/-- C8: `compressFolder` does not use the exclusion filter string: it
splits it into `exclusions`, which `addDirFiles` never reads, so the result
is the same for every exclusion filter string. A root holding `a.txt` and
`b.log`, packaged with an empty inclusion filter and the exclusion filter
`!*.log`, gives an archive holding both files, while the same pattern in
the inclusion filter string gives `a.txt` alone. -/
theorem compressFolder_ignores_exclusions :
    (∀ (pm : PathMatch) (tempFile : Option String) (closeOk : Bool) (root : Dir)
        (filter e1 e2 : String),
      compressFolder pm tempFile closeOk root filter e1 =
        compressFolder pm tempFile closeOk root filter e2) ∧
    compressFolder pathMatch (some "cx-1.zip") true sampleRoot "" "!*.log" =
      some ⟨"cx-1.zip", none, [("/a.txt", [104, 105]), ("/b.log", [1, 2, 3])]⟩ ∧
    compressFolder pathMatch (some "cx-1.zip") true sampleRoot "!*.log" "" =
      some ⟨"cx-1.zip", none, [("/a.txt", [104, 105])]⟩ := by
  refine ⟨?_, by decide, by decide⟩
  intro pm tempFile closeOk root filter e1 e2
  unfold compressFolder
  simp only
  rw [addDirFiles_exclusions pm _ _ (if e2.length > 0 then some (splitComma e2) else none)]

/-- C9 as stated fails: packaging a root that holds `a.txt` and a
sub-directory `sub` with `a.txt` creates the entries `/a.txt` and
`/sub/a.txt`, whose names begin with `/`. -/
theorem compressFolder_entry_names_counterexample :
    compressFolder pathMatch (some "cx-1.zip") true sampleNested "" "" =
      some ⟨"cx-1.zip", none, [("/a.txt", [104, 105]), ("/sub/a.txt", [7])]⟩ ∧
    ¬ (∀ r, compressFolder pathMatch (some "cx-1.zip") true sampleNested "" "" = some r →
        ∀ e ∈ r.archive, e.1.data.head? ≠ some '/') := by
  refine ⟨by decide, ?_⟩
  intro h
  exact h ⟨"cx-1.zip", none, [("/a.txt", [104, 105]), ("/sub/a.txt", [7])]⟩ (by decide)
    ("/a.txt", [104, 105]) (by decide) (by decide)

/-- C9, amended: every entry that `compressFolder` writes is named `/`
followed by the names of the directories leading from the packaged root to
the file, each followed by one `/`, and the base name of the file; the root
directory itself is not a segment, and every name begins with `/`. -/
theorem compressFolder_entry_names (pm : PathMatch) (tempFile : Option String)
    (closeOk : Bool) (root : Dir) (filter sourceExclusionFilter : String) (r : Compressed)
    (h : compressFolder pm tempFile closeOk root filter sourceExclusionFilter = some r) :
    ∀ e ∈ r.archive,
      (∃ x ∈ root.files, e.1 = "/" ++ joinPath x.dirs x.name) ∧ e.1.data.head? = some '/' := by
  obtain ⟨_, _, _, ha⟩ := compressFolder_some pm tempFile closeOk root filter
    sourceExclusionFilter r h
  intro e he
  rw [ha, keptEntries, List.mem_map] at he
  obtain ⟨x, hx, rfl⟩ := he
  exact ⟨⟨x, (List.mem_filter.1 hx).1, rfl⟩, head_append_slash _⟩

/-- C9 amended, at a concrete input: the entries of the nested example. -/
theorem compressFolder_entry_names_witness :
    compressFolder pathMatch (some "cx-1.zip") true sampleNested "" "" =
      some ⟨"cx-1.zip", none, [("/a.txt", [104, 105]), ("/sub/a.txt", [7])]⟩ ∧
    ∀ e ∈ [("/a.txt", ([104, 105] : Bytes)), ("/sub/a.txt", [7])],
      (∃ x ∈ sampleNested.files, e.1 = "/" ++ joinPath x.dirs x.name) ∧
        e.1.data.head? = some '/' :=
  ⟨by decide,
   compressFolder_entry_names pathMatch (some "cx-1.zip") true sampleNested "" ""
     ⟨"cx-1.zip", none, [("/a.txt", [104, 105]), ("/sub/a.txt", [7])]⟩ (by decide)⟩

/-- C10 as stated fails: with a root that cannot be listed, `compressFolder`
returns the path of the archive and a nil error. -/
theorem compressFolder_unreadable_counterexample :
    compressFolder pathMatch (some "cx-1.zip") true Dir.unreadable "" "" =
      some ⟨"cx-1.zip", none, []⟩ ∧
    ¬ (∀ r, compressFolder pathMatch (some "cx-1.zip") true Dir.unreadable "" "" = some r →
        r.err ≠ none) := by
  refine ⟨by decide, ?_⟩
  intro h
  exact h ⟨"cx-1.zip", none, []⟩ (by decide) rfl

/-- C10, amended: whenever `compressFolder` returns, it returns the path of
the temporary archive file and a nil error, whether or not the root
directory was listed; when the root cannot be listed (the error is only
printed) it returns so with an archive that has no entry. -/
theorem compressFolder_err_nil (pm : PathMatch) (filter sourceExclusionFilter : String) :
    (∀ outputFile, compressFolder pm (some outputFile) true Dir.unreadable filter
        sourceExclusionFilter = some ⟨outputFile, none, []⟩) ∧
    ∀ tempFile closeOk root r,
      compressFolder pm tempFile closeOk root filter sourceExclusionFilter = some r →
        tempFile = some r.path ∧ r.err = none := by
  constructor
  · intro outputFile
    simp [compressFolder, addDirFiles]
  · intro tempFile closeOk root r h
    obtain ⟨h1, _, h3, _⟩ := compressFolder_some pm tempFile closeOk root filter
      sourceExclusionFilter r h
    exact ⟨h1, h3⟩

/-- C10 amended, at a concrete input: a listed root gives a nil error too. -/
theorem compressFolder_err_nil_witness :
    compressFolder pathMatch (some "cx-1.zip") true sampleRoot "*.txt" "" =
      some ⟨"cx-1.zip", none, [("/a.txt", [104, 105])]⟩ ∧
    (some "cx-1.zip" = some "cx-1.zip" ∧ (none : Option String) = none) :=
  ⟨by decide,
   (compressFolder_err_nil pathMatch "*.txt" "").2 (some "cx-1.zip") true sampleRoot
     ⟨"cx-1.zip", none, [("/a.txt", [104, 105])]⟩ (by decide)⟩

/-! ### Facts about maps and the statements of `updateScanRequestValues` -/

theorem lookup_setKey (k k1 : String) (v : Json) (m : JsonMap) :
    lookup k (setKey k1 v m) = if k1 = k then some v else lookup k m := by
  induction m with
  | nil =>
    by_cases h : k1 = k <;> simp [setKey, lookup, h]
  | cons kv rest ih =>
    obtain ⟨k2, v2⟩ := kv
    simp only [setKey, lookup]
    split_ifs <;> simp_all [lookup]

theorem setProject_eq_some (info info1 : JsonMap) (k : String) (v : Json) :
    setProject info k v = some info1 ↔
      ∃ p, lookup "project" info = some (.obj p) ∧
        info1 = setKey "project" (.obj (setKey k v p)) info := by
  unfold setProject
  cases h : lookup "project" info with
  | none => simp [asMap]
  | some x =>
    cases x <;> simp [asMap, eq_comm]

theorem config0_eq_some (info c0 : JsonMap) :
    config0 info = some c0 ↔ ∃ rest, lookup "config" info = some (.arr (.obj c0 :: rest)) := by
  unfold config0
  cases h : lookup "config" info with
  | none => simp [asSlice]
  | some x =>
    cases x with
    | arr items =>
      cases items with
      | nil => simp [asSlice]
      | cons c rest =>
        cases c <;> simp [asSlice, asMap]
    | _ => simp [asSlice]

theorem setConfig0_eq_some (info info1 : JsonMap) (k : String) (v : Json) :
    setConfig0 info k v = some info1 ↔
      ∃ c0 rest, lookup "config" info = some (.arr (.obj c0 :: rest)) ∧
        info1 = setKey "config" (.arr (.obj (setKey k v c0) :: rest)) info := by
  unfold setConfig0 config0
  cases h : lookup "config" info with
  | none => simp [asSlice]
  | some x =>
    cases x with
    | arr items =>
      cases items with
      | nil => simp [asSlice]
      | cons c rest =>
        cases c with
        | obj fields =>
          simp only [asSlice, asMap, Option.some.injEq, Json.arr.injEq, List.cons.injEq,
            Json.obj.injEq]
          constructor
          · intro h1
            exact ⟨fields, rest, ⟨rfl, rfl⟩, h1.symm⟩
          · rintro ⟨c1, rest1, ⟨e1, e2⟩, h1⟩
            rw [h1, e1, e2]
        | _ => simp [asSlice, asMap]
    | _ => simp [asSlice]

theorem setValue_eq_some (info info1 : JsonMap) (k : String) (v : Json) :
    setValue info k v = some info1 ↔
      ∃ c0 rest value, lookup "config" info = some (.arr (.obj c0 :: rest)) ∧
        lookup "value" c0 = some (.obj value) ∧
        info1 = setKey "config"
          (.arr (.obj (setKey "value" (.obj (setKey k v value)) c0) :: rest)) info := by
  constructor
  · intro h
    unfold setValue at h
    cases hc : config0 info with
    | none => simp [hc] at h
    | some c =>
      obtain ⟨rest, hc1⟩ := (config0_eq_some info c).1 hc
      simp only [hc] at h
      cases hv : lookup "value" c with
      | none => simp [hv, asMap] at h
      | some x =>
        cases x with
        | obj value =>
          simp only [hv, asMap] at h
          obtain ⟨c1, rest1, h2, h3⟩ := (setConfig0_eq_some _ _ _ _).1 h
          rw [hc1] at h2
          simp only [Option.some.injEq, Json.arr.injEq, List.cons.injEq, Json.obj.injEq] at h2
          obtain ⟨e1, e2⟩ := h2
          rw [← e1, ← e2] at h3
          exact ⟨c, rest, value, hc1, hv, h3⟩
        | _ => simp [hv, asMap] at h
  · rintro ⟨c0, rest, value, h1, h2, h3⟩
    have hc := (config0_eq_some info c0).2 ⟨rest, h1⟩
    unfold setValue
    simp only [hc, h2, asMap]
    exact (setConfig0_eq_some _ _ _ _).2 ⟨c0, rest, h1, h3⟩

theorem paths_congr (a b : JsonMap) (hp : lookup "project" a = lookup "project" b)
    (hc : lookup "config" a = lookup "config" b) : paths (.obj a) = paths (.obj b) := by
  simp [paths, pathProjectId, pathProjectType, pathConfigType, pathIncremental, pathPresetName,
    projectField, valueField, configField, configFirst, hp, hc]

theorem paths_initProject (m : JsonMap) :
    paths (.obj (if isNil (lookup "project" m) then setKey "project" (.obj []) m else m)) =
      paths (.obj m) := by
  cases h : lookup "project" m with
  | none =>
    simp [isNil, paths, pathProjectId, pathProjectType, pathConfigType, pathIncremental,
      pathPresetName, projectField, valueField, configField, configFirst, lookup_setKey, h,
      lookup]
  | some x =>
    cases x <;>
    simp [isNil, paths, pathProjectId, pathProjectType, pathConfigType, pathIncremental,
      pathPresetName, projectField, valueField, configField, configFirst, lookup_setKey, h,
      lookup]

theorem paths_initConfig (m : JsonMap) :
    paths (.obj (if isNil (lookup "config" m) then setKey "config" (.arr [.obj []]) m else m)) =
      paths (.obj m) := by
  cases h : lookup "config" m with
  | none =>
    simp [isNil, isObj, paths, pathProjectId, pathProjectType, pathConfigType, pathIncremental,
      pathPresetName, projectField, valueField, configField, configFirst, lookup_setKey, h,
      lookup]
  | some x =>
    cases x <;>
    simp [isNil, isObj, paths, pathProjectId, pathProjectType, pathConfigType, pathIncremental,
      pathPresetName, projectField, valueField, configField, configFirst, lookup_setKey, h,
      lookup]

theorem paths_setProject_id (c : Prop) [Decidable c] (info info1 : JsonMap) (v : Json)
    (h : (if c then setProject info "id" v else some info) = some info1) :
    paths (.obj info1) =
      { paths (.obj info) with
        projectId := if c then some v else (paths (.obj info)).projectId } := by
  by_cases hc : c
  · simp only [hc, if_true] at h ⊢
    obtain ⟨p, h1, rfl⟩ := (setProject_eq_some _ _ _ _).1 h
    simp [paths, pathProjectId, pathProjectType, pathConfigType, pathIncremental,
      pathPresetName, projectField, valueField, configField, configFirst, lookup_setKey, h1]
  · simp only [hc, if_false, Option.some.injEq] at h ⊢
    rw [h]

theorem paths_setProject_type (c : Prop) [Decidable c] (info info1 : JsonMap) (v : Json)
    (h : (if c then setProject info "type" v else some info) = some info1) :
    paths (.obj info1) =
      { paths (.obj info) with
        projectType := if c then some v else (paths (.obj info)).projectType } := by
  by_cases hc : c
  · simp only [hc, if_true] at h ⊢
    obtain ⟨p, h1, rfl⟩ := (setProject_eq_some _ _ _ _).1 h
    simp [paths, pathProjectId, pathProjectType, pathConfigType, pathIncremental,
      pathPresetName, projectField, valueField, configField, configFirst, lookup_setKey, h1]
  · simp only [hc, if_false, Option.some.injEq] at h ⊢
    rw [h]

theorem paths_setConfig0_type (c : Prop) [Decidable c] (info info1 : JsonMap) (v : Json)
    (h : (if c then setConfig0 info "type" v else some info) = some info1) :
    paths (.obj info1) =
      { paths (.obj info) with
        configType := if c then some v else (paths (.obj info)).configType } := by
  by_cases hc : c
  · simp only [hc, if_true] at h ⊢
    obtain ⟨c0, rest, h1, rfl⟩ := (setConfig0_eq_some _ _ _ _).1 h
    simp [paths, pathProjectId, pathProjectType, pathConfigType, pathIncremental,
      pathPresetName, projectField, valueField, configField, configFirst, lookup_setKey, h1]
  · simp only [hc, if_false, Option.some.injEq] at h ⊢
    rw [h]

theorem paths_initValue (info info1 c0 : JsonMap) (h0 : config0 info = some c0)
    (h : (if isNil (lookup "value" c0) then setConfig0 info "value" (.obj []) else some info) =
      some info1) :
    paths (.obj info1) =
      { paths (.obj info) with
        valueNil := false
        valueObj := (paths (.obj info)).valueObj || (paths (.obj info)).valueNil } := by
  obtain ⟨rest, h2⟩ := (config0_eq_some _ _).1 h0
  cases hv : lookup "value" c0 with
  | none =>
    simp only [hv, isNil, if_true] at h
    obtain ⟨c1, rest1, h1, rfl⟩ := (setConfig0_eq_some _ _ _ _).1 h
    rw [h2] at h1
    simp only [Option.some.injEq, Json.arr.injEq, List.cons.injEq, Json.obj.injEq] at h1
    obtain ⟨e1, e2⟩ := h1
    subst e1 e2
    simp [paths, pathProjectId, pathProjectType, pathConfigType, pathIncremental,
      pathPresetName, projectField, valueField, configField, configFirst, lookup_setKey, h2, hv,
      isNil, isObj, lookup]
  | some x =>
    cases x with
    | null =>
      simp only [hv, isNil, if_true] at h
      obtain ⟨c1, rest1, h1, rfl⟩ := (setConfig0_eq_some _ _ _ _).1 h
      rw [h2] at h1
      simp only [Option.some.injEq, Json.arr.injEq, List.cons.injEq, Json.obj.injEq] at h1
      obtain ⟨e1, e2⟩ := h1
      subst e1 e2
      simp [paths, pathProjectId, pathProjectType, pathConfigType, pathIncremental,
        pathPresetName, projectField, valueField, configField, configFirst, lookup_setKey, h2,
        hv, isNil, isObj, lookup]
    | _ =>
      simp only [hv, isNil, if_false, Option.some.injEq, Bool.false_eq_true] at h
      subst h
      simp [paths, pathProjectId, pathProjectType, pathConfigType, pathIncremental,
        pathPresetName, projectField, valueField, configField, configFirst, h2, hv, isNil,
        isObj]

theorem paths_setValue_incremental (c : Prop) [Decidable c] (info info1 : JsonMap) (v : Json)
    (h : (if c then setValue info "incremental" v else some info) = some info1) :
    paths (.obj info1) =
      { paths (.obj info) with
        incremental := if c then some v else (paths (.obj info)).incremental } := by
  by_cases hc : c
  · simp only [hc, if_true] at h ⊢
    obtain ⟨c0, rest, value, h1, h2, rfl⟩ := (setValue_eq_some _ _ _ _).1 h
    simp [paths, pathProjectId, pathProjectType, pathConfigType, pathIncremental,
      pathPresetName, projectField, valueField, configField, configFirst, lookup_setKey, h1, h2,
      isNil, isObj]
  · simp only [hc, if_false, Option.some.injEq] at h ⊢
    rw [h]

theorem paths_setValue_presetName (c : Prop) [Decidable c] (info info1 : JsonMap) (v : Json)
    (h : (if c then setValue info "presetName" v else some info) = some info1) :
    paths (.obj info1) =
      { paths (.obj info) with
        presetName := if c then some v else (paths (.obj info)).presetName } := by
  by_cases hc : c
  · simp only [hc, if_true] at h ⊢
    obtain ⟨c0, rest, value, h1, h2, rfl⟩ := (setValue_eq_some _ _ _ _).1 h
    simp [paths, pathProjectId, pathProjectType, pathConfigType, pathIncremental,
      pathPresetName, projectField, valueField, configField, configFirst, lookup_setKey, h1, h2,
      isNil, isObj]
  · simp only [hc, if_false, Option.some.injEq] at h ⊢
    rw [h]

/-- What `updateScanRequestValues` does to the observation of an object
document, whenever it returns. -/
theorem paths_updateScanRequestValues (m : JsonMap) (cmd : Flags) (out : Json)
    (h : updateScanRequestValues (some (.obj m)) cmd = some out) :
    paths out =
      { projectId :=
          if cmd.projectName ≠ "" then some (.str cmd.projectName)
          else (paths (.obj m)).projectId
        projectType :=
          if cmd.projectSourceType ≠ "" then some (.str cmd.projectSourceType)
          else (paths (.obj m)).projectType
        configType :=
          if cmd.projectType ≠ "" then some (.str cmd.projectType)
          else (paths (.obj m)).configType
        incremental :=
          if cmd.incremental ≠ "" then some (.str cmd.incremental)
          else (paths (.obj m)).incremental
        presetName :=
          if cmd.presetName ≠ "" then some (.str cmd.presetName)
          else (paths (.obj m)).presetName
        valueNil := false
        valueObj := (paths (.obj m)).valueObj || (paths (.obj m)).valueNil } := by
  unfold updateScanRequestValues at h
  simp only at h
  split at h
  · simp at h
  rename_i info2 e2
  split at h
  · simp at h
  rename_i info3 e3
  split at h
  · simp at h
  rename_i info5 e5
  split at h
  · simp at h
  rename_i c0 e0
  split at h
  · simp at h
  rename_i info6 e6
  split at h
  · simp at h
  rename_i info7 e7
  split at h
  · simp at h
  rename_i info8 e8
  simp only [Option.some.injEq] at h
  subst h
  rw [paths_setValue_presetName _ _ _ _ e8, paths_setValue_incremental _ _ _ _ e7,
    paths_initValue _ _ _ e0 e6, paths_setConfig0_type _ _ _ _ e5, paths_initConfig,
    paths_setProject_type _ _ _ _ e3, paths_setProject_id _ _ _ _ e2, paths_initProject]

theorem setProject_defined (c : Prop) [Decidable c] (info : JsonMap) (k : String) (v : Json)
    (hp : ∃ p, lookup "project" info = some (.obj p)) :
    ∃ info1, (if c then setProject info k v else some info) = some info1 ∧
      (∃ p, lookup "project" info1 = some (.obj p)) ∧
      lookup "config" info1 = lookup "config" info := by
  by_cases hc : c
  · obtain ⟨p, hp⟩ := hp
    refine ⟨setKey "project" (.obj (setKey k v p)) info, ?_, ?_, ?_⟩
    · simp only [hc, if_true]
      exact (setProject_eq_some _ _ _ _).2 ⟨p, hp, rfl⟩
    · exact ⟨setKey k v p, by simp [lookup_setKey]⟩
    · simp [lookup_setKey]
  · exact ⟨info, by simp [hc], hp, rfl⟩

theorem setConfig0_defined (c : Prop) [Decidable c] (info c0 : JsonMap) (rest : List Json)
    (k : String) (v : Json) (hk : k ≠ "value")
    (hc0 : lookup "config" info = some (.arr (.obj c0 :: rest))) :
    ∃ info1 c1, (if c then setConfig0 info k v else some info) = some info1 ∧
      lookup "config" info1 = some (.arr (.obj c1 :: rest)) ∧
      lookup "value" c1 = lookup "value" c0 := by
  by_cases hc : c
  · refine ⟨setKey "config" (.arr (.obj (setKey k v c0) :: rest)) info, setKey k v c0, ?_, ?_, ?_⟩
    · simp only [hc, if_true]
      exact (setConfig0_eq_some _ _ _ _).2 ⟨c0, rest, hc0, rfl⟩
    · simp [lookup_setKey]
    · simp [lookup_setKey, hk]
  · exact ⟨info, c0, by simp [hc], hc0, rfl⟩

theorem initValue_defined (info c0 : JsonMap) (rest : List Json)
    (hc0 : lookup "config" info = some (.arr (.obj c0 :: rest))) (hv : valueOk c0) :
    ∃ info1 c1 value,
      (if isNil (lookup "value" c0) then setConfig0 info "value" (.obj []) else some info) =
        some info1 ∧
      lookup "config" info1 = some (.arr (.obj c1 :: rest)) ∧
      lookup "value" c1 = some (.obj value) := by
  by_cases hn : isNil (lookup "value" c0) = true
  · refine ⟨setKey "config" (.arr (.obj (setKey "value" (.obj []) c0) :: rest)) info,
      setKey "value" (.obj []) c0, [], ?_, ?_, ?_⟩
    · simp only [hn, if_true]
      exact (setConfig0_eq_some _ _ _ _).2 ⟨c0, rest, hc0, rfl⟩
    · simp [lookup_setKey]
    · simp [lookup_setKey]
  · rcases hv with hv | ⟨value, hv⟩
    · exact absurd hv hn
    · exact ⟨info, c0, value, by simp [hv, isNil], hc0, hv⟩

theorem initValue_some (info c0 : JsonMap) (rest : List Json)
    (hc0 : lookup "config" info = some (.arr (.obj c0 :: rest))) :
    ∃ info1,
      (if isNil (lookup "value" c0) then setConfig0 info "value" (.obj []) else some info) =
        some info1 := by
  by_cases hn : isNil (lookup "value" c0) = true
  · refine ⟨setKey "config" (.arr (.obj (setKey "value" (.obj []) c0) :: rest)) info, ?_⟩
    simp only [hn, if_true]
    exact (setConfig0_eq_some _ _ _ _).2 ⟨c0, rest, hc0, rfl⟩
  · exact ⟨info, by simp [hn]⟩

theorem setValue_defined (c : Prop) [Decidable c] (info c0 value : JsonMap) (rest : List Json)
    (k : String) (v : Json)
    (hc0 : lookup "config" info = some (.arr (.obj c0 :: rest)))
    (hv : lookup "value" c0 = some (.obj value)) :
    ∃ info1 c1 value1, (if c then setValue info k v else some info) = some info1 ∧
      lookup "config" info1 = some (.arr (.obj c1 :: rest)) ∧
      lookup "value" c1 = some (.obj value1) := by
  by_cases hc : c
  · refine ⟨setKey "config"
        (.arr (.obj (setKey "value" (.obj (setKey k v value)) c0) :: rest)) info,
      setKey "value" (.obj (setKey k v value)) c0, setKey k v value, ?_, ?_, ?_⟩
    · simp only [hc, if_true]
      exact (setValue_eq_some _ _ _ _).2 ⟨c0, rest, value, hc0, hv, rfl⟩
    · simp [lookup_setKey]
    · simp [lookup_setKey]
  · exact ⟨info, c0, value, by simp [hc], hc0, hv⟩

/-- On an object document in which `project` is absent or an object and
`config` is absent or an array starting with an object whose `value` is nil
or an object, unless neither the incremental flag nor the preset name is
given, `updateScanRequestValues` returns. -/
theorem updateScanRequestValues_defined (m : JsonMap) (cmd : Flags)
    (hp : lookup "project" m = none ∨ ∃ p, lookup "project" m = some (.obj p))
    (hc : lookup "config" m = none ∨
      ∃ c0 rest, lookup "config" m = some (.arr (.obj c0 :: rest)) ∧
        (valueOk c0 ∨ (cmd.incremental = "" ∧ cmd.presetName = ""))) :
    ∃ out, updateScanRequestValues (some (.obj m)) cmd = some out := by
  -- the project settings
  have h1 : (∃ p, lookup "project"
        (if isNil (lookup "project" m) then setKey "project" (.obj []) m else m) =
          some (.obj p)) ∧
      lookup "config" (if isNil (lookup "project" m) then setKey "project" (.obj []) m else m) =
        lookup "config" m := by
    rcases hp with hp | ⟨p, hp⟩
    · simp [hp, isNil, lookup_setKey]
    · simp [hp, isNil]
  obtain ⟨info2, e2, hp2, hc2⟩ := setProject_defined (cmd.projectName ≠ "") _ "id"
    (.str cmd.projectName) h1.1
  obtain ⟨info3, e3, hp3, hc3⟩ := setProject_defined (cmd.projectSourceType ≠ "") info2 "type"
    (.str cmd.projectSourceType) hp2
  -- the scan configuration
  have h4 : ∃ c0 rest, lookup "config"
        (if isNil (lookup "config" info3) then setKey "config" (.arr [.obj []]) info3
          else info3) = some (.arr (.obj c0 :: rest)) ∧
      (valueOk c0 ∨ (cmd.incremental = "" ∧ cmd.presetName = "")) := by
    rw [hc3, hc2, h1.2]
    rcases hc with hc | ⟨c0, rest, hc, hv⟩
    · exact ⟨[], [], by simp [hc, isNil, lookup_setKey], Or.inl (Or.inl rfl)⟩
    · refine ⟨c0, rest, ?_, hv⟩
      simp only [hc, isNil, Bool.false_eq_true, if_false]
      rw [hc3, hc2, h1.2, hc]
  obtain ⟨c4, rest, hc4, hv4⟩ := h4
  obtain ⟨info5, c5, e5, hc5, hv5⟩ := setConfig0_defined (cmd.projectType ≠ "") _ c4 rest "type"
    (.str cmd.projectType) (by decide) hc4
  have e0 : config0 info5 = some c5 := (config0_eq_some _ _).2 ⟨rest, hc5⟩
  rcases hv4 with hv4 | ⟨hi, hn⟩
  · obtain ⟨info6, c6, value6, e6, hc6, hv6⟩ := initValue_defined info5 c5 rest hc5
      (by unfold valueOk at hv4 ⊢; rw [hv5]; exact hv4)
    obtain ⟨info7, c7, value7, e7, hc7, hv7⟩ := setValue_defined (cmd.incremental ≠ "") info6
      c6 value6 rest "incremental" (.str cmd.incremental) hc6 hv6
    obtain ⟨info8, c8, value8, e8, _, _⟩ := setValue_defined (cmd.presetName ≠ "") info7 c7
      value7 rest "presetName" (.str cmd.presetName) hc7 hv7
    refine ⟨.obj info8, ?_⟩
    unfold updateScanRequestValues
    simp only [e2, e3, e5, e0, e6, e7, e8]
  · obtain ⟨info6, e6⟩ := initValue_some info5 c5 rest hc5
    refine ⟨.obj info6, ?_⟩
    unfold updateScanRequestValues
    simp only [e2, e3, e5, e0, e6, hi, hn, ne_eq, not_true_eq_false, if_false]

theorem wellShaped_defined (m : JsonMap) (cmd : Flags) (h : wellShaped m) :
    ∃ out, updateScanRequestValues (some (.obj m)) cmd = some out := by
  obtain ⟨hp, hc⟩ := h
  refine updateScanRequestValues_defined m cmd hp ?_
  rcases hc with hc | ⟨c0, rest, hc, hv⟩
  · exact Or.inl hc
  · refine Or.inr ⟨c0, rest, hc, Or.inl ?_⟩
    rcases hv with hv | ⟨value, hv⟩
    · exact Or.inl (by simp [hv, isNil])
    · exact Or.inr ⟨value, hv⟩

theorem looseShaped_defined (m : JsonMap) (cmd : Flags) (h : looseShaped m)
    (hv : valueShaped m cmd) :
    ∃ out, updateScanRequestValues (some (.obj m)) cmd = some out := by
  obtain ⟨hp, hc⟩ := h
  refine updateScanRequestValues_defined m cmd hp ?_
  rcases hc with hc | ⟨items, hc, hne, hall⟩
  · exact Or.inl hc
  · cases items with
    | nil => exact absurd rfl hne
    | cons i rest =>
      obtain ⟨c0, rfl⟩ := hall i (List.mem_cons_self i rest)
      refine Or.inr ⟨c0, rest, hc, ?_⟩
      rcases hv with hv | hv
      · exact Or.inr hv
      · exact Or.inl (hv c0 rest hc)

theorem wellShaped_value (m : JsonMap) (h : wellShaped m) :
    ((paths (.obj m)).valueObj || (paths (.obj m)).valueNil) = true := by
  obtain ⟨_, hc⟩ := h
  rcases hc with hc | ⟨c0, rest, hc, hv⟩
  · simp [paths, configField, configFirst, hc, isNil]
  · rcases hv with hv | ⟨value, hv⟩
    · simp [paths, configField, configFirst, hc, hv, isNil]
    · simp [paths, configField, configFirst, hc, hv, isObj]

theorem isObj_eq_true (x : Option Json) (h : isObj x = true) : ∃ value, x = some (.obj value) := by
  cases x with
  | none => simp [isObj] at h
  | some v =>
    cases v with
    | obj value => exact ⟨value, rfl⟩
    | _ => simp [isObj] at h

/-! ## The request synthesizer -/

/-- C4: for every base document that is a JSON object in which `project`,
when present, is an object and `config`, when present, is a non-empty array
whose first element is an object with `value` absent or an object, and for
all flags, `updateScanRequestValues` returns a document in which
`project.id` is the project name, `project.type` the project source type,
`config[0].type` the project type, `config[0].value.incremental` the
incremental flag and `config[0].value.presetName` the preset name, each as
a string and for each flag that is non-empty, and in which `config[0].value`
is an object. -/
theorem updateScanRequestValues_overrides (m : JsonMap) (cmd : Flags) (h : wellShaped m) :
    ∃ out, updateScanRequestValues (some (.obj m)) cmd = some out ∧
      (cmd.projectName ≠ "" → pathProjectId out = some (.str cmd.projectName)) ∧
      (cmd.projectSourceType ≠ "" → pathProjectType out = some (.str cmd.projectSourceType)) ∧
      (cmd.projectType ≠ "" → pathConfigType out = some (.str cmd.projectType)) ∧
      (cmd.incremental ≠ "" → pathIncremental out = some (.str cmd.incremental)) ∧
      (cmd.presetName ≠ "" → pathPresetName out = some (.str cmd.presetName)) ∧
      ∃ value, configField "value" out = some (.obj value) := by
  obtain ⟨out, hout⟩ := wellShaped_defined m cmd h
  have hp := paths_updateScanRequestValues m cmd out hout
  have h1 := congrArg Paths.projectId hp
  have h2 := congrArg Paths.projectType hp
  have h3 := congrArg Paths.configType hp
  have h4 := congrArg Paths.incremental hp
  have h5 := congrArg Paths.presetName hp
  have h6 := congrArg Paths.valueObj hp
  simp only [paths] at h1 h2 h3 h4 h5
  refine ⟨out, hout, ?_, ?_, ?_, ?_, ?_, ?_⟩
  · intro hc; rw [h1, if_pos hc]
  · intro hc; rw [h2, if_pos hc]
  · intro hc; rw [h3, if_pos hc]
  · intro hc; rw [h4, if_pos hc]
  · intro hc; rw [h5, if_pos hc]
  · simp only [wellShaped_value m h] at h6
    exact isObj_eq_true _ h6

/-- C4, at the example of the specification: the project name `p1` on the
base document `{}` gives `project.id` equal to `p1` and `config` equal
to an array of one object whose `value` is the empty object. -/
theorem updateScanRequestValues_overrides_witness :
    wellShaped [] ∧
    updateScanRequestValues (some (.obj [])) ⟨"p1", "", "", "", ""⟩ =
      some (.obj [("project", .obj [("id", .str "p1")]),
        ("config", .arr [.obj [("value", .obj [])]])]) ∧
    ∃ out, updateScanRequestValues (some (.obj [])) ⟨"p1", "", "", "", ""⟩ = some out ∧
      (("p1" : String) ≠ "" → pathProjectId out = some (.str "p1")) ∧
      (("" : String) ≠ "" → pathProjectType out = some (.str "")) ∧
      (("" : String) ≠ "" → pathConfigType out = some (.str "")) ∧
      (("" : String) ≠ "" → pathIncremental out = some (.str "")) ∧
      (("" : String) ≠ "" → pathPresetName out = some (.str "")) ∧
      ∃ value, configField "value" out = some (.obj value) :=
  ⟨⟨Or.inl rfl, Or.inl rfl⟩, rfl,
   updateScanRequestValues_overrides [] ⟨"p1", "", "", "", ""⟩ ⟨Or.inl rfl, Or.inl rfl⟩⟩

/-- C5 as stated fails: the base document
`{"config":[{"value":"x"}]}` is a JSON object whose `config`
is a non-empty array of objects, and with the preset name `p` and no project
name `updateScanRequestValues` panics at the type assertion on
`config[0].value`, so that no document is produced in which `project.id`
could be what it was. -/
theorem updateScanRequestValues_frame_counterexample :
    looseShaped [("config", .arr [.obj [("value", .str "x")]])] ∧
    updateScanRequestValues (some (.obj [("config", .arr [.obj [("value", .str "x")]])]))
      ⟨"", "", "", "", "p"⟩ = none ∧
    ¬ (∀ (m : JsonMap) (cmd : Flags), looseShaped m →
        ∃ out, updateScanRequestValues (some (.obj m)) cmd = some out ∧
          (cmd.projectName = "" → pathProjectId out = pathProjectId (.obj m))) := by
  have hshape : looseShaped [("config", .arr [.obj [("value", .str "x")]])] := by
    refine ⟨Or.inl rfl, Or.inr ⟨[.obj [("value", .str "x")]], rfl, by simp, ?_⟩⟩
    intro i hi
    simp only [List.mem_singleton] at hi
    exact ⟨_, hi⟩
  refine ⟨hshape, rfl, ?_⟩
  intro h
  obtain ⟨out, hout, _⟩ := h _ ⟨"", "", "", "", "p"⟩ hshape
  have hnone : updateScanRequestValues
      (some (.obj [("config", .arr [.obj [("value", .str "x")]])]))
      ⟨"", "", "", "", "p"⟩ = none := rfl
  rw [hnone] at hout
  exact absurd hout (by simp)

/-- C5, amended: for every base document that is a JSON object in which
`project`, when present, is an object and `config`, when present, is a
non-empty array of objects, and in which `config[0].value` is absent, null
or an object unless neither the incremental flag nor the preset name is
given, `updateScanRequestValues` returns a document in which, for each of
the five flags that is the empty string, the value at its path
(`project.id` for the project name, `project.type` for the project source
type, `config[0].type` for the project type, `config[0].value.incremental`
for the incremental flag, `config[0].value.presetName` for the preset name)
is the value the base document had there, an absent value staying absent,
whatever the other four flags are. -/
theorem updateScanRequestValues_frame (m : JsonMap) (cmd : Flags) (h : looseShaped m)
    (hv : valueShaped m cmd) :
    ∃ out, updateScanRequestValues (some (.obj m)) cmd = some out ∧
      (cmd.projectName = "" → pathProjectId out = pathProjectId (.obj m)) ∧
      (cmd.projectSourceType = "" → pathProjectType out = pathProjectType (.obj m)) ∧
      (cmd.projectType = "" → pathConfigType out = pathConfigType (.obj m)) ∧
      (cmd.incremental = "" → pathIncremental out = pathIncremental (.obj m)) ∧
      (cmd.presetName = "" → pathPresetName out = pathPresetName (.obj m)) := by
  obtain ⟨out, hout⟩ := looseShaped_defined m cmd h hv
  have hp := paths_updateScanRequestValues m cmd out hout
  have h1 := congrArg Paths.projectId hp
  have h2 := congrArg Paths.projectType hp
  have h3 := congrArg Paths.configType hp
  have h4 := congrArg Paths.incremental hp
  have h5 := congrArg Paths.presetName hp
  simp only [paths] at h1 h2 h3 h4 h5
  refine ⟨out, hout, ?_, ?_, ?_, ?_, ?_⟩
  · intro hc; rw [h1, if_neg (not_not.2 hc)]
  · intro hc; rw [h2, if_neg (not_not.2 hc)]
  · intro hc; rw [h3, if_neg (not_not.2 hc)]
  · intro hc; rw [h4, if_neg (not_not.2 hc)]
  · intro hc; rw [h5, if_neg (not_not.2 hc)]

/-- C5 amended, at the example of the specification: a base document with
`project.id` equal to `existing` and no project name given keeps
`project.id` equal to `existing`, also when the other flags are given. -/
theorem updateScanRequestValues_frame_witness :
    updateScanRequestValues (some (.obj [("project", .obj [("id", .str "existing")])]))
        ⟨"", "upload", "sast", "true", "preset"⟩ =
      some (.obj [("project", .obj [("id", .str "existing"), ("type", .str "upload")]),
        ("config", .arr [.obj [("type", .str "sast"),
          ("value", .obj [("incremental", .str "true"), ("presetName", .str "preset")])]])]) ∧
    pathProjectId (.obj [("project", .obj [("id", .str "existing")])]) =
      some (.str "existing") ∧
    ∃ out, updateScanRequestValues (some (.obj [("project", .obj [("id", .str "existing")])]))
        ⟨"", "upload", "sast", "true", "preset"⟩ = some out ∧
      ((("" : String) = "" →
        pathProjectId out = pathProjectId (.obj [("project", .obj [("id", .str "existing")])])) ∧
      (("upload" : String) = "" →
        pathProjectType out =
          pathProjectType (.obj [("project", .obj [("id", .str "existing")])])) ∧
      (("sast" : String) = "" →
        pathConfigType out =
          pathConfigType (.obj [("project", .obj [("id", .str "existing")])])) ∧
      (("true" : String) = "" →
        pathIncremental out =
          pathIncremental (.obj [("project", .obj [("id", .str "existing")])])) ∧
      (("preset" : String) = "" →
        pathPresetName out =
          pathPresetName (.obj [("project", .obj [("id", .str "existing")])]))) :=
  ⟨rfl, rfl,
   updateScanRequestValues_frame [("project", .obj [("id", .str "existing")])]
     ⟨"", "upload", "sast", "true", "preset"⟩
     ⟨Or.inr ⟨_, rfl⟩, Or.inl rfl⟩
     (Or.inr (fun c0 rest hc => absurd hc (by simp [lookup])))⟩

/-! ## The response interpreter -/

/-- C6: for `Get` and `Tags`, for every status code and every body, exactly
one of the three results is populated, and the status alone selects which
model can be: status 200 gives the success result decoded from the body and
never the error model, status 400 or 500 gives the error model decoded from
the body and never the success result, and any other status gives only the
error `Unknown response status code` followed by the number, which does not
depend on the body. With a body that decodes to the code 5 and the message
`boom`, status 500 gives exactly that error model. -/
theorem interpret_exactly_one {α : Type} (decodeError : Decode ErrorModel)
    (decodeOk : Decode α) (decodeTags : Decode (List String)) (statusCode : Int)
    (body : String) :
    (ScansHTTPWrapper.Get decodeError decodeOk (.ok (statusCode, body))).exactlyOne ∧
    (ScansHTTPWrapper.Tags decodeError decodeTags (.ok (statusCode, body))).exactlyOne ∧
    (statusCode = 200 →
      (ScansHTTPWrapper.Get decodeError decodeOk (.ok (statusCode, body))).errorModel = none ∧
      (ScansHTTPWrapper.Tags decodeError decodeTags (.ok (statusCode, body))).errorModel =
        none ∧
      (∀ model, decodeOk body = .ok model →
        ScansHTTPWrapper.Get decodeError decodeOk (.ok (statusCode, body)) =
          ⟨some model, none, none⟩) ∧
      (∀ tags, decodeTags body = .ok tags →
        ScansHTTPWrapper.Tags decodeError decodeTags (.ok (statusCode, body)) =
          ⟨some tags, none, none⟩)) ∧
    (statusCode = 400 ∨ statusCode = 500 →
      (ScansHTTPWrapper.Get decodeError decodeOk (.ok (statusCode, body))).model = none ∧
      (ScansHTTPWrapper.Tags decodeError decodeTags (.ok (statusCode, body))).model = none ∧
      (∀ errorModel, decodeError body = .ok errorModel →
        ScansHTTPWrapper.Get decodeError decodeOk (.ok (statusCode, body)) =
          ⟨none, some errorModel, none⟩ ∧
        ScansHTTPWrapper.Tags decodeError decodeTags (.ok (statusCode, body)) =
          ⟨none, some errorModel, none⟩)) ∧
    (statusCode ≠ 200 → statusCode ≠ 400 → statusCode ≠ 500 →
      ScansHTTPWrapper.Get decodeError decodeOk (.ok (statusCode, body)) =
        ⟨none, none, some ("Unknown response status code " ++ toString statusCode)⟩ ∧
      ScansHTTPWrapper.Tags decodeError decodeTags (.ok (statusCode, body)) =
        ⟨none, none, some ("Unknown response status code " ++ toString statusCode)⟩) ∧
    (decodeError body = .ok ⟨5, "boom"⟩ →
      ScansHTTPWrapper.Get decodeError decodeOk (.ok (500, body)) =
        ⟨none, some ⟨5, "boom"⟩, none⟩ ∧
      ScansHTTPWrapper.Tags decodeError decodeTags (.ok (500, body)) =
        ⟨none, some ⟨5, "boom"⟩, none⟩) := by
  refine ⟨?_, ?_, ?_, ?_, ?_, ?_⟩
  · unfold ScansHTTPWrapper.Get Outcome.exactlyOne
    simp only
    split_ifs
    · cases decodeError body <;> simp
    · cases decodeOk body <;> simp
    · simp
  · unfold ScansHTTPWrapper.Tags Outcome.exactlyOne
    simp only
    split_ifs
    · cases decodeError body <;> simp
    · cases decodeTags body <;> simp
    · simp
  · intro h
    subst h
    simp only [ScansHTTPWrapper.Get, ScansHTTPWrapper.Tags]
    refine ⟨?_, ?_, ?_, ?_⟩
    · cases decodeOk body <;> simp
    · cases decodeTags body <;> simp
    · intro model hm
      simp [hm]
    · intro tags hm
      simp [hm]
  · intro h
    simp only [ScansHTTPWrapper.Get, ScansHTTPWrapper.Tags, h, if_true]
    refine ⟨?_, ?_, ?_⟩
    · cases decodeError body <;> simp
    · cases decodeError body <;> simp
    · intro errorModel hm
      simp [hm]
  · intro h1 h2 h3
    simp [ScansHTTPWrapper.Get, ScansHTTPWrapper.Tags, h1, h2, h3]
  · intro h
    simp [ScansHTTPWrapper.Get, ScansHTTPWrapper.Tags, h]

/-- C6, at the example of the specification: status 500 with the body
`{"code":5,"message":"boom"}` gives exactly the error model with code
5 and message `boom`, and status 404 the unknown-status error. -/
theorem interpret_exactly_one_witness :
    sampleDecodeError "\x7b\"code\":5,\"message\":\"boom\"\x7d" = .ok ⟨5, "boom"⟩ ∧
    (ScansHTTPWrapper.Get sampleDecodeError sampleDecodeTags
        (.ok (500, "\x7b\"code\":5,\"message\":\"boom\"\x7d")) =
      ⟨none, some ⟨5, "boom"⟩, none⟩ ∧
     ScansHTTPWrapper.Tags sampleDecodeError sampleDecodeTags
        (.ok (500, "\x7b\"code\":5,\"message\":\"boom\"\x7d")) =
      ⟨none, some ⟨5, "boom"⟩, none⟩) ∧
    ScansHTTPWrapper.Get sampleDecodeError sampleDecodeTags (.ok (404, "[]")) =
      ⟨none, none, some "Unknown response status code 404"⟩ :=
  ⟨rfl,
   (interpret_exactly_one sampleDecodeError sampleDecodeTags sampleDecodeTags 500
      "\x7b\"code\":5,\"message\":\"boom\"\x7d").2.2.2.2.2 rfl,
   by decide⟩

/-- C7: for `Get` and `Tags`, for every body that does not decode to the
schema selected by the status (the success schema of the operation for
status 200, the error schema for status 400 or 500), the outcome is the
parse failure: the error is set, to the decoding error wrapped with the
message of the operation, and both the success result and the error model
are nil. -/
theorem interpret_parse_failure {α : Type} (decodeError : Decode ErrorModel)
    (decodeOk : Decode α) (decodeTags : Decode (List String)) (statusCode : Int)
    (body e : String) :
    (statusCode = 200 → decodeOk body = .error e →
      ScansHTTPWrapper.Get decodeError decodeOk (.ok (statusCode, body)) =
        ⟨none, none, some (wrapf e failedToParseGetAll)⟩) ∧
    (statusCode = 200 → decodeTags body = .error e →
      ScansHTTPWrapper.Tags decodeError decodeTags (.ok (statusCode, body)) =
        ⟨none, none, some (wrapf e failedToParseTags)⟩) ∧
    (statusCode = 400 ∨ statusCode = 500 → decodeError body = .error e →
      ScansHTTPWrapper.Get decodeError decodeOk (.ok (statusCode, body)) =
        ⟨none, none, some (wrapf e failedToParseGetAll)⟩ ∧
      ScansHTTPWrapper.Tags decodeError decodeTags (.ok (statusCode, body)) =
        ⟨none, none, some (wrapf e failedToParseTags)⟩) := by
  refine ⟨?_, ?_, ?_⟩
  · intro h hd
    subst h
    simp [ScansHTTPWrapper.Get, hd]
  · intro h hd
    subst h
    simp [ScansHTTPWrapper.Tags, hd]
  · intro h hd
    simp [ScansHTTPWrapper.Get, ScansHTTPWrapper.Tags, h, hd]

/-- C7, at a concrete input: status 200 with the body `oops`, which is no
list of tags, gives the parse failure of `Tags` and no result. -/
theorem interpret_parse_failure_witness :
    sampleDecodeTags "oops" = .error "invalid character" ∧
    ScansHTTPWrapper.Tags sampleDecodeError sampleDecodeTags (.ok (200, "oops")) =
      ⟨none, none, some "Failed to parse tags response: invalid character"⟩ :=
  ⟨rfl,
   (interpret_parse_failure sampleDecodeError sampleDecodeTags sampleDecodeTags 200 "oops"
      "invalid character").2.1 rfl rfl⟩

/-! ### The verdict in closed form, permutations and patterns without a match -/

theorem filterMatched_eq (pm : PathMatch) (filters : List String) (f : String) :
    filterMatched pm filters f =
      if "" ∈ filters then none
      else some (!hasInclusion filters || anyInclusion pm f filters,
        anyExclusion pm f filters) := by
  by_cases h : "" ∈ filters
  · rw [if_pos h]
    exact (filterMatched_eq_none_iff pm filters f).2 h
  · rw [if_neg h]
    cases hv : filterMatched pm filters f with
    | none => exact absurd ((filterMatched_eq_none_iff pm filters f).1 hv) h
    | some v =>
      obtain ⟨included, excluded⟩ := v
      obtain ⟨h1, h2⟩ := filterMatched_some pm filters f included excluded hv
      rw [h1, h2]

theorem any_perm {α : Type} (p : α → Bool) (l1 l2 : List α) (h : l1.Perm l2) :
    l1.any p = l2.any p := by
  rw [Bool.eq_iff_iff, List.any_eq_true, List.any_eq_true]
  constructor
  · rintro ⟨x, hx, hp⟩
    exact ⟨x, h.mem_iff.1 hx, hp⟩
  · rintro ⟨x, hx, hp⟩
    exact ⟨x, h.mem_iff.2 hx, hp⟩

theorem matchLoop_cases (fuel : Nat) :
    ∀ pattern name, matchLoop fuel pattern name = (false, true) ∨
      (matchLoop fuel pattern name).2 = false := by
  induction fuel with
  | zero => intro pattern name; exact Or.inl rfl
  | succ n ih =>
    intro pattern name
    unfold matchLoop
    simp only
    split_ifs
    · exact Or.inr rfl
    · exact Or.inr rfl
    · exact ih _ _
    · exact Or.inl rfl
    · split
      · exact ih _ _
      · exact Or.inl rfl
      · exact Or.inr rfl
    · exact Or.inr rfl

theorem pathMatch_err (pattern name : String) (h : (pathMatch pattern name).2 = true) :
    (pathMatch pattern name).1 = false := by
  unfold pathMatch at h ⊢
  rcases matchLoop_cases (pattern.length + 1) pattern.data name.data with h1 | h1
  · rw [h1]
  · rw [h1] at h
    exact absurd h (by simp)

theorem isExclusion_ne_empty (p : String) (h : isExclusion p) : p ≠ "" := by
  intro hp
  subst hp
  simp [isExclusion] at h

theorem mem_insert_iff (l1 l2 : List String) (p : String) (hp : p ≠ "") :
    "" ∈ l1 ++ p :: l2 ↔ "" ∈ l1 ++ l2 := by
  simp only [List.mem_append, List.mem_cons]
  constructor
  · rintro (h | h | h)
    · exact Or.inl h
    · exact absurd h.symm hp
    · exact Or.inr h
  · rintro (h | h)
    · exact Or.inl h
    · exact Or.inr (Or.inr h)

/-! ## Order of the rules, malformed and empty patterns -/

/-- C12: for every two rule lists that are permutations of one another and
every file name, `filterMatched` gives the same outcome: the same verdict
`(included, excluded)`, or in both orders the panic on an empty pattern. -/
theorem filterMatched_perm (pm : PathMatch) (filters1 filters2 : List String) (f : String)
    (h : filters1.Perm filters2) :
    filterMatched pm filters1 f = filterMatched pm filters2 f := by
  rw [filterMatched_eq, filterMatched_eq]
  have hmem : "" ∈ filters1 ↔ "" ∈ filters2 := h.mem_iff
  have h1 : hasInclusion filters1 = hasInclusion filters2 := any_perm _ _ _ h
  have h2 : anyInclusion pm f filters1 = anyInclusion pm f filters2 := any_perm _ _ _ h
  have h3 : anyExclusion pm f filters1 = anyExclusion pm f filters2 := any_perm _ _ _ h
  rw [h1, h2, h3]
  by_cases hm : "" ∈ filters1
  · rw [if_pos hm, if_pos (hmem.1 hm)]
  · rw [if_neg hm, if_neg (fun h2 => hm (hmem.2 h2))]

/-- C12, at a concrete input: the rules `*.txt` and `!a*` in both orders
give the name `a.txt` the verdict `(true, true)`. -/
theorem filterMatched_perm_witness :
    List.Perm ["*.txt", "!a*"] ["!a*", "*.txt"] ∧
    filterMatched pathMatch ["*.txt", "!a*"] "a.txt" = some (true, true) ∧
    filterMatched pathMatch ["*.txt", "!a*"] "a.txt" =
      filterMatched pathMatch ["!a*", "*.txt"] "a.txt" :=
  ⟨List.Perm.swap "!a*" "*.txt" [], by decide,
   filterMatched_perm pathMatch ["*.txt", "!a*"] ["!a*", "*.txt"] "a.txt"
     (List.Perm.swap "!a*" "*.txt" [])⟩

/-- C14: `filterMatched` returns a verdict exactly when no pattern is the
empty string: on the patterns `a`, the empty string and `b`, which splitting
`a,,b` at the commas gives, indexing `filter[0]` fails and the call panics.
A malformed pattern does not fail: `path.Match` reports no match together
with its error, the error is dropped, and a pattern without a match leaves
the verdict to the remaining patterns, as the malformed `[` before `*.txt`
does for the name `a.txt`. -/
theorem filterMatched_returns :
    (∀ (pm : PathMatch) (filters : List String) (f : String),
      (∃ verdict, filterMatched pm filters f = some verdict) ↔ ∀ p ∈ filters, p ≠ "") ∧
    (∀ pattern name, (pathMatch pattern name).2 = true → (pathMatch pattern name).1 = false) ∧
    (∀ (pm : PathMatch) (l1 l2 : List String) (p f : String),
      isExclusion p → (pm (stripMarker p) f).1 = false →
        filterMatched pm (l1 ++ p :: l2) f = filterMatched pm (l1 ++ l2) f) ∧
    (∀ (pm : PathMatch) (l1 l2 : List String) (p f : String),
      p ≠ "" → ¬ isExclusion p → (pm p f).1 = false → "" ∉ l1 ++ l2 →
        filterMatched pm (l1 ++ p :: l2) f =
          some (anyInclusion pm f (l1 ++ l2), anyExclusion pm f (l1 ++ l2))) ∧
    (splitComma "a,,b" = ["a", "", "b"] ∧
      filterMatched pathMatch ["a", "", "b"] "a" = none) ∧
    (pathMatch "[" "a.txt" = (false, true) ∧
      filterMatched pathMatch ["[", "*.txt"] "a.txt" = some (true, false)) := by
  refine ⟨?_, pathMatch_err, ?_, ?_, ⟨by decide, by decide⟩, ⟨by decide, by decide⟩⟩
  · intro pm filters f
    rw [filterMatched_eq]
    by_cases h : "" ∈ filters
    · simp only [if_pos h, reduceCtorEq, exists_false, false_iff]
      intro hall
      exact hall "" h rfl
    · simp only [if_neg h, Option.some.injEq, exists_eq', true_iff]
      intro p hp hpe
      exact h (hpe ▸ hp)
  · intro pm l1 l2 p f hex hm
    rw [filterMatched_eq, filterMatched_eq]
    have hmem := mem_insert_iff l1 l2 p (isExclusion_ne_empty p hex)
    have h1 : hasInclusion (l1 ++ p :: l2) = hasInclusion (l1 ++ l2) := by
      simp [hasInclusion, hex]
    have h2 : anyInclusion pm f (l1 ++ p :: l2) = anyInclusion pm f (l1 ++ l2) := by
      simp [anyInclusion, hex]
    have h3 : anyExclusion pm f (l1 ++ p :: l2) = anyExclusion pm f (l1 ++ l2) := by
      simp [anyExclusion, hex, hm]
    rw [h1, h2, h3]
    by_cases hm1 : "" ∈ l1 ++ l2
    · rw [if_pos hm1, if_pos (hmem.2 hm1)]
    · rw [if_neg hm1, if_neg (fun h2 => hm1 (hmem.1 h2))]
  · intro pm l1 l2 p f hp hex hm hne
    rw [filterMatched_eq, if_neg (fun h2 => hne ((mem_insert_iff l1 l2 p hp).1 h2))]
    have h1 : hasInclusion (l1 ++ p :: l2) = true := by
      simp [hasInclusion, hex]
    have h2 : anyInclusion pm f (l1 ++ p :: l2) = anyInclusion pm f (l1 ++ l2) := by
      simp [anyInclusion, hex, hm]
    have h3 : anyExclusion pm f (l1 ++ p :: l2) = anyExclusion pm f (l1 ++ l2) := by
      simp [anyExclusion, hex]
    rw [h1, h2, h3]
    simp

/-- C14, at a concrete input: after the malformed pattern `[` the pattern
`*.txt` is still evaluated. -/
theorem filterMatched_returns_witness :
    (pathMatch "[" "a.txt").1 = false ∧
    filterMatched pathMatch ([] ++ "[" :: ["*.txt"]) "a.txt" =
      some (anyInclusion pathMatch "a.txt" ([] ++ ["*.txt"]),
        anyExclusion pathMatch "a.txt" ([] ++ ["*.txt"])) :=
  ⟨by decide,
   filterMatched_returns.2.2.2.1 pathMatch [] ["*.txt"] "[" "a.txt" (by decide) (by decide)
     (by decide) (by decide)⟩

/-! ### Facts about the shapes on which `updateScanRequestValues` completes -/

theorem isObj_or_isNil (x : Option Json) (h : (isObj x || isNil x) = true) :
    isNil x = true ∨ ∃ p, x = some (.obj p) := by
  cases x with
  | none => exact Or.inl rfl
  | some v =>
    cases v with
    | null => exact Or.inl rfl
    | obj p => exact Or.inr ⟨p, rfl⟩
    | _ => simp [isObj, isNil] at h

theorem setProject_lookups (c : Prop) [Decidable c] (info info1 : JsonMap) (k : String)
    (v : Json) (h : (if c then setProject info k v else some info) = some info1) :
    lookup "config" info1 = lookup "config" info ∧
      isObj (lookup "project" info1) = isObj (lookup "project" info) := by
  by_cases hc : c
  · simp only [hc, if_true] at h
    obtain ⟨p, h1, rfl⟩ := (setProject_eq_some _ _ _ _).1 h
    simp [lookup_setKey, h1, isObj]
  · simp only [hc, if_false, Option.some.injEq] at h
    rw [h]
    exact ⟨rfl, rfl⟩

theorem setConfig0_lookups (c : Prop) [Decidable c] (info info1 : JsonMap) (k : String)
    (v : Json) (h : (if c then setConfig0 info k v else some info) = some info1) :
    lookup "project" info1 = lookup "project" info ∧
      ∀ c1 rest, lookup "config" info1 = some (.arr (.obj c1 :: rest)) →
        ∃ c0, lookup "config" info = some (.arr (.obj c0 :: rest)) := by
  by_cases hc : c
  · simp only [hc, if_true] at h
    obtain ⟨c0, rest0, h1, rfl⟩ := (setConfig0_eq_some _ _ _ _).1 h
    refine ⟨by simp [lookup_setKey], ?_⟩
    intro c1 rest h2
    simp only [lookup_setKey, if_true, Option.some.injEq, Json.arr.injEq, List.cons.injEq,
      Json.obj.injEq] at h2
    exact ⟨c0, by rw [h1, h2.2]⟩
  · simp only [hc, if_false, Option.some.injEq] at h
    rw [h]
    exact ⟨rfl, fun c1 rest h2 => ⟨c1, h2⟩⟩

theorem setValue_lookups (c : Prop) [Decidable c] (info info1 : JsonMap) (k : String)
    (v : Json) (h : (if c then setValue info k v else some info) = some info1) :
    lookup "project" info1 = lookup "project" info := by
  by_cases hc : c
  · simp only [hc, if_true] at h
    obtain ⟨c0, rest0, value, h1, _, rfl⟩ := (setValue_eq_some _ _ _ _).1 h
    simp [lookup_setKey]
  · simp only [hc, if_false, Option.some.injEq] at h
    rw [h]

/-- What a run of `updateScanRequestValues` that returns says of `project`
and `config` in the base document and in the result. -/
theorem lookups_updateScanRequestValues (m : JsonMap) (cmd : Flags) (out : Json)
    (h : updateScanRequestValues (some (.obj m)) cmd = some out) :
    isObj (projectOf out) = (isObj (lookup "project" m) || isNil (lookup "project" m)) ∧
    (isNil (lookup "config" m) = true ∨
      ∃ c0 rest, lookup "config" m = some (.arr (.obj c0 :: rest))) := by
  unfold updateScanRequestValues at h
  simp only at h
  split at h
  · simp at h
  rename_i info2 e2
  split at h
  · simp at h
  rename_i info3 e3
  split at h
  · simp at h
  rename_i info5 e5
  split at h
  · simp at h
  rename_i c0 e0
  split at h
  · simp at h
  rename_i info6 e6
  split at h
  · simp at h
  rename_i info7 e7
  split at h
  · simp at h
  rename_i info8 e8
  simp only [Option.some.injEq] at h
  subst h
  obtain ⟨hc2, hp2⟩ := setProject_lookups _ _ _ _ _ e2
  obtain ⟨hc3, hp3⟩ := setProject_lookups _ _ _ _ _ e3
  obtain ⟨hp5, hc5⟩ := setConfig0_lookups _ _ _ _ _ e5
  obtain ⟨hp6, _⟩ := setConfig0_lookups _ _ _ _ _ e6
  have hp7 := setValue_lookups _ _ _ _ _ e7
  have hp8 := setValue_lookups _ _ _ _ _ e8
  have hc1 : lookup "config"
      (if isNil (lookup "project" m) then setKey "project" (.obj []) m else m) =
        lookup "config" m := by
    split <;> simp [lookup_setKey]
  have hp1 : isObj (lookup "project"
      (if isNil (lookup "project" m) then setKey "project" (.obj []) m else m)) =
        (isObj (lookup "project" m) || isNil (lookup "project" m)) := by
    cases hx : lookup "project" m with
    | none => simp [isNil, isObj, lookup_setKey]
    | some x => cases x <;> simp [isNil, isObj, lookup_setKey, hx]
  constructor
  · simp only [projectOf]
    rw [hp8, hp7, hp6, hp5]
    have hp4 : lookup "project"
        (if isNil (lookup "config" info3) then setKey "config" (.arr [.obj []]) info3
          else info3) = lookup "project" info3 := by
      split <;> simp [lookup_setKey]
    rw [hp4, hp3, hp2, hp1]
  · obtain ⟨rest, hcfg5⟩ := (config0_eq_some _ _).1 e0
    obtain ⟨c4, hcfg4⟩ := hc5 _ _ hcfg5
    by_cases hn : isNil (lookup "config" info3) = true
    · left
      rw [hc3, hc2, hc1] at hn
      exact hn
    · right
      simp only [hn, Bool.false_eq_true, if_false] at hcfg4
      rw [hc3, hc2, hc1] at hcfg4
      exact ⟨c4, rest, hcfg4⟩

theorem updateScanRequestValues_defined_nil (m : JsonMap) (cmd : Flags)
    (hp : isNil (lookup "project" m) = true ∨ ∃ p, lookup "project" m = some (.obj p))
    (hc : isNil (lookup "config" m) = true ∨
      ∃ c0 rest, lookup "config" m = some (.arr (.obj c0 :: rest)) ∧ valueOk c0) :
    ∃ out, updateScanRequestValues (some (.obj m)) cmd = some out := by
  -- the project settings
  have h1 : (∃ p, lookup "project"
        (if isNil (lookup "project" m) then setKey "project" (.obj []) m else m) =
          some (.obj p)) ∧
      lookup "config" (if isNil (lookup "project" m) then setKey "project" (.obj []) m else m) =
        lookup "config" m := by
    rcases hp with hp | ⟨p, hp⟩
    · simp [hp, lookup_setKey]
    · simp [hp, isNil]
  obtain ⟨info2, e2, hp2, hc2⟩ := setProject_defined (cmd.projectName ≠ "") _ "id"
    (.str cmd.projectName) h1.1
  obtain ⟨info3, e3, hp3, hc3⟩ := setProject_defined (cmd.projectSourceType ≠ "") info2 "type"
    (.str cmd.projectSourceType) hp2
  -- the scan configuration
  have h4 : ∃ c0 rest, lookup "config"
        (if isNil (lookup "config" info3) then setKey "config" (.arr [.obj []]) info3
          else info3) = some (.arr (.obj c0 :: rest)) ∧ valueOk c0 := by
    rw [hc3, hc2, h1.2]
    rcases hc with hc | ⟨c0, rest, hc, hv⟩
    · exact ⟨[], [], by simp [hc, lookup_setKey], Or.inl rfl⟩
    · refine ⟨c0, rest, ?_, hv⟩
      simp only [hc, isNil, Bool.false_eq_true, if_false]
      rw [hc3, hc2, h1.2, hc]
  obtain ⟨c4, rest, hc4, hv4⟩ := h4
  obtain ⟨info5, c5, e5, hc5, hv5⟩ := setConfig0_defined (cmd.projectType ≠ "") _ c4 rest "type"
    (.str cmd.projectType) (by decide) hc4
  have e0 : config0 info5 = some c5 := (config0_eq_some _ _).2 ⟨rest, hc5⟩
  obtain ⟨info6, c6, value6, e6, hc6, hv6⟩ := initValue_defined info5 c5 rest hc5
    (by unfold valueOk at hv4 ⊢; rw [hv5]; exact hv4)
  obtain ⟨info7, c7, value7, e7, hc7, hv7⟩ := setValue_defined (cmd.incremental ≠ "") info6
    c6 value6 rest "incremental" (.str cmd.incremental) hc6 hv6
  obtain ⟨info8, c8, value8, e8, _, _⟩ := setValue_defined (cmd.presetName ≠ "") info7 c7
    value7 rest "presetName" (.str cmd.presetName) hc7 hv7
  refine ⟨.obj info8, ?_⟩
  unfold updateScanRequestValues
  simp only [e2, e3, e5, e0, e6, e7, e8]

theorem synthShaped_value (m : JsonMap) (h : synthShaped m) :
    ((paths (.obj m)).valueObj || (paths (.obj m)).valueNil) = true := by
  obtain ⟨_, hc⟩ := h
  rcases hc with hc | ⟨c0, rest, hc, hv⟩
  · cases hx : lookup "config" m with
    | none => simp [paths, configField, configFirst, hx, isNil]
    | some x =>
      cases x <;> simp [hx, isNil] at hc
      simp [paths, configField, configFirst, hx, isNil]
  · rcases hv with hv | ⟨value, hv⟩
    · simp [paths, configField, configFirst, hc, hv]
    · simp [paths, configField, configFirst, hc, hv, isObj]

/-- Conversely, a run that returns a document with a project object and a
value object started from a base document of the shape `synthShaped`. -/
theorem synthShaped_of_synthesized (m : JsonMap) (cmd : Flags) (out : Json)
    (h : updateScanRequestValues (some (.obj m)) cmd = some out) (hs : synthesized out) :
    synthShaped m := by
  obtain ⟨hp, hc⟩ := lookups_updateScanRequestValues m cmd out h
  have hv := congrArg Paths.valueObj (paths_updateScanRequestValues m cmd out h)
  obtain ⟨⟨p, hproj⟩, ⟨value, hval⟩⟩ := hs
  constructor
  · apply isObj_or_isNil
    rw [← hp, hproj]
    rfl
  · rcases hc with hc | ⟨c0, rest, hc⟩
    · exact Or.inl hc
    · refine Or.inr ⟨c0, rest, hc, ?_⟩
      have h1 : (paths out).valueObj = true := by simp [paths, hval, isObj]
      rw [h1] at hv
      apply isObj_or_isNil
      simpa [paths, configField, configFirst, hc] using hv.symm

/-! ## Completion of the request synthesizer -/

/-- C13 as stated fails: on the base document with `config` an empty array
`updateScanRequestValues` panics at the index 0, whatever the flags, and on
a base document whose `project` is a string it panics at the type assertion
when the project name is given; so not every JSON object is taken to a
result. -/
theorem updateScanRequestValues_completes_counterexample :
    updateScanRequestValues (some (.obj [("config", .arr [])])) ⟨"", "", "", "", ""⟩ = none ∧
    updateScanRequestValues (some (.obj [("project", .str "x")])) ⟨"p1", "", "", "", ""⟩ =
      none ∧
    ¬ (∀ (m : JsonMap) (cmd : Flags),
        ∃ out, updateScanRequestValues (some (.obj m)) cmd = some out ∧ synthesized out) := by
  refine ⟨rfl, rfl, ?_⟩
  intro h
  obtain ⟨out, hout, _⟩ := h [("config", .arr [])] ⟨"", "", "", "", ""⟩
  have hnone : updateScanRequestValues (some (.obj [("config", .arr [])]))
      ⟨"", "", "", "", ""⟩ = none := rfl
  rw [hnone] at hout
  exact absurd hout (by simp)

/-- C13, amended: for every base document that is a JSON object in which
`project` is absent, null or an object and `config` is absent, null or a
non-empty array whose first element is an object with `value` absent, null
or an object, and for all flags, `updateScanRequestValues` completes
without a runtime failure, and the resulting document has a `project`
object and a `config` array whose first element is an object with a
non-null object at `value`. -/
theorem updateScanRequestValues_completes (m : JsonMap) (cmd : Flags) (h : synthShaped m) :
    ∃ out, updateScanRequestValues (some (.obj m)) cmd = some out ∧ synthesized out := by
  obtain ⟨out, hout⟩ := updateScanRequestValues_defined_nil m cmd h.1 h.2
  refine ⟨out, hout, ?_, ?_⟩
  · have hp := (lookups_updateScanRequestValues m cmd out hout).1
    apply isObj_eq_true
    rw [hp]
    rcases h.1 with h1 | ⟨p, h1⟩
    · simp [h1]
    · simp [h1, isObj]
  · have hv := congrArg Paths.valueObj (paths_updateScanRequestValues m cmd out hout)
    simp only [synthShaped_value m h] at hv
    exact isObj_eq_true _ hv

/-- C13 amended, at a concrete input: the base document whose `project` and
`config[0].value` are null is completed with both as objects. -/
theorem updateScanRequestValues_completes_witness :
    synthShaped [("project", .null), ("config", .arr [.obj [("value", .null)]])] ∧
    updateScanRequestValues
        (some (.obj [("project", .null), ("config", .arr [.obj [("value", .null)]])]))
        ⟨"", "", "", "", "preset"⟩ =
      some (.obj [("project", .obj []),
        ("config", .arr [.obj [("value", .obj [("presetName", .str "preset")])]])]) ∧
    ∃ out, updateScanRequestValues
        (some (.obj [("project", .null), ("config", .arr [.obj [("value", .null)]])]))
        ⟨"", "", "", "", "preset"⟩ = some out ∧ synthesized out :=
  ⟨⟨Or.inl rfl, Or.inr ⟨_, _, rfl, Or.inl rfl⟩⟩, rfl,
   updateScanRequestValues_completes _ ⟨"", "", "", "", "preset"⟩
     ⟨Or.inl rfl, Or.inr ⟨_, _, rfl, Or.inl rfl⟩⟩⟩

/-! ## The create command on a bad input document -/

/-- C11: when the input document is malformed JSON or valid JSON whose top
level is not an object, the create command crashes: `json.Unmarshal` leaves
`info` a nil map, its error is dropped, and `updateScanRequestValues`
panics at the first write into the map, before the request deserializer is
reached; neither the upload channel nor the scan service is called. The
error `Failed creating a scan: Input in bad format` is returned only for an
object document that `updateScanRequestValues` completes and the
deserializer refuses. An input file holding `[]` makes the command crash. -/
theorem runCreateScanCommand_bad_input :
    (∀ (Scan Resp View : Type) (env : CreateEnv Scan Resp View) (cmd : CreateFlags)
        (input : Option Json),
      cmd.inputFile ≠ "" → env.readInput cmd.inputFile = .ok input →
      (∀ info, input ≠ some (.obj info)) →
        runCreateScanCommand env cmd = ⟨[], [], none⟩) ∧
    (∀ (Scan Resp View : Type) (env : CreateEnv Scan Resp View) (cmd : CreateFlags)
        (input : Option Json) (doc : Json) (err : String),
      cmd.inputFile ≠ "" → env.readInput cmd.inputFile = .ok input →
      updateScanRequestValues input cmd.overrides = some doc →
      env.unmarshalScan doc = .error err →
        runCreateScanCommand env cmd =
          ⟨[], [], some (some ("Failed creating a scan: Input in bad format: " ++ err))⟩) ∧
    runCreateScanCommand sampleEnv ⟨"scan.json", "", "", "", "", ⟨"", "", "", "", ""⟩⟩ =
      ⟨[], [], none⟩ := by
  refine ⟨?_, ?_, rfl⟩
  · intro Scan Resp View env cmd input hfile hread hshape
    have hnone : updateScanRequestValues input cmd.overrides = none := by
      unfold updateScanRequestValues
      split
      · rename_i info0
        exact absurd rfl (hshape info0)
      · rfl
    unfold runCreateScanCommand
    simp only [hfile, ne_eq, not_false_eq_true, if_true, hread, hnone]
  · intro Scan Resp View env cmd input doc err hfile hread hdoc herr
    unfold runCreateScanCommand
    simp only [hfile, ne_eq, not_false_eq_true, if_true, hread, hdoc, herr]
    rfl

/-- C11, at concrete inputs: an input file holding `[]` makes the command
crash, and one holding the empty object, which the sample deserializer
refuses, gives the error for a bad format. -/
theorem runCreateScanCommand_bad_input_witness :
    runCreateScanCommand sampleEnv ⟨"scan.json", "", "", "", "", ⟨"", "", "", "", ""⟩⟩ =
      ⟨[], [], none⟩ ∧
    runCreateScanCommand { sampleEnv with readInput := fun _ => .ok (some (.obj [])) }
        ⟨"scan.json", "", "", "", "", ⟨"", "", "", "", ""⟩⟩ =
      ⟨[], [], some (some
        ("Failed creating a scan: Input in bad format: " ++ "json: cannot unmarshal"))⟩ :=
  ⟨runCreateScanCommand_bad_input.1 String String String sampleEnv
     ⟨"scan.json", "", "", "", "", ⟨"", "", "", "", ""⟩⟩ (some (.arr [])) (by decide) rfl
     (fun info h => by simp at h),
   runCreateScanCommand_bad_input.2.1 String String String
     { sampleEnv with readInput := fun _ => .ok (some (.obj [])) }
     ⟨"scan.json", "", "", "", "", ⟨"", "", "", "", ""⟩⟩ (some (.obj []))
     (.obj [("project", .obj []), ("config", .arr [.obj [("value", .obj [])]])])
     "json: cannot unmarshal" (by decide) rfl rfl rfl⟩

end AstCli
